import Mathlib

/-!
# pm-launchpad: derived-state computations

A shallow embedding of the pure logic of `src/views/OKRView.jsx` and
`src/views/BacklogView.jsx`: objective progress and status classification,
and the backlog drag-and-drop reordering.

JavaScript numbers are IEEE-754 binary64 values.  `calculateProgress` divides
and multiplies such values before rounding, so those two operations are
modelled with their correctly rounded (round-to-nearest, ties-to-even)
results; integers are kept as `Nat`/`Int`.
-/

namespace PmLaunchpad

/-! ## Binary64 arithmetic on non-negative values -/

/-- A finite non-negative binary64 value, `man * 2 ^ exp`. -/
structure Double where
  man : Nat
  exp : Int
  deriving DecidableEq, Repr

/-- The integer nearest to `n / d`, a tie going to the even neighbour. -/
def roundNearestEven (n d : Nat) : Nat :=
  let m := n / d
  let r := n % d
  if 2 * r < d then m
  else if d < 2 * r then m + 1
  else if m % 2 = 0 then m else m + 1

/-- Loop of `floorLog2`, on `fuel`. -/
def floorLog2Aux : Nat → Nat → Nat
  | 0, _ => 0
  | fuel + 1, n => if 2 ≤ n then floorLog2Aux fuel (n / 2) + 1 else 0

/-- The position of the leading bit of `n`: `2 ^ floorLog2 n ≤ n < 2 ^ (floorLog2 n + 1)`
for `0 < n`. -/
def floorLog2 (n : Nat) : Nat := floorLog2Aux n n

/-- The binary64 value nearest to `(p / q) * 2 ^ e`, ties to even: the
quotient is scaled by `2 ^ k` into `[2 ^ 52, 2 ^ 53)`, rounded to an integer
significand of 53 bits, and scaled back.  The exponent range of binary64 is
not modelled: every value formed below lies between `2 ^ (-32)` and `100`.
`q = 0` is never passed (the callers guard the division). -/
def Double.round (p q : Nat) (e : Int) : Double :=
  if p = 0 ∨ q = 0 then ⟨0, 0⟩
  else
    let k0 : Int := 52 - ((floorLog2 p : Int) - (floorLog2 q : Int))
    let k : Int := if p * 2 ^ k0.toNat < 2 ^ 52 * (q * 2 ^ (-k0).toNat) then k0 + 1 else k0
    ⟨roundNearestEven (p * 2 ^ k.toNat) (q * 2 ^ (-k).toNat), e - k⟩

/-- A JavaScript integer below `2 ^ 53` as a binary64 value (exact). -/
def Double.ofNat (n : Nat) : Double := ⟨n, 0⟩

/-- JavaScript `x / y` on binary64 values. -/
def Double.div (x y : Double) : Double :=
  Double.round x.man y.man (x.exp - y.exp)

/-- JavaScript `x * y` on binary64 values. -/
def Double.mul (x y : Double) : Double :=
  Double.round (x.man * y.man) 1 (x.exp + y.exp)

/-- JavaScript `Math.round` on a non-negative binary64 value: the nearest
integer, a half going up, that is `floor (x + 1/2)`. -/
def mathRound (x : Double) : Nat :=
  if 0 ≤ x.exp then x.man * 2 ^ x.exp.toNat
  else (2 * x.man + 2 ^ (-x.exp).toNat) / 2 ^ ((-x.exp).toNat + 1)

/-! ## Objectives (`OKRView.jsx`) -/

/-- A key result: `{ text, done }`. -/
structure KeyResult where
  text : String
  done : Bool
  deriving DecidableEq, Repr

/-- The function `calculateProgress` of `OKRView.jsx`.  `none` is an absent
(`null`/`undefined`) list.
```
if (!krs || krs.length === 0) return 0;
const completed = krs.filter(kr => kr.done).length;
return Math.round((completed / krs.length) * 100);
``` -/
def calculateProgress (krs : Option (List KeyResult)) : Nat :=
  match krs with
  | none => 0
  | some l =>
    if l.length = 0 then 0
    else
      let completed := (l.filter (fun kr => kr.done)).length
      mathRound (Double.mul (Double.div (Double.ofNat completed) (Double.ofNat l.length))
        (Double.ofNat 100))

/-- The object returned by `getStatus`: `{ label, color, bg, icon }` (the icon
by the name of its component). -/
structure StatusBadge where
  label : String
  color : String
  bg : String
  icon : String
  deriving DecidableEq, Repr

/-- The divisor `1000 * 60 * 60 * 24`: the milliseconds of a day. -/
def msPerDay : Int := 1000 * 60 * 60 * 24

/-- The value `Math.ceil((due - today) / (1000 * 60 * 60 * 24))`, where `today`
is the time value (milliseconds) of the local midnight that began the current
day and `due` the time value of `new Date(dueDate)`; `none` stands for `NaN`,
which an invalid date gives.  The ceiling is taken of the exact quotient: the
difference is an integer below `2 ^ 53` in size for dates less than 285000
years apart, the divisor is below `2 ^ 27`, so a quotient that is no integer is
more than half a unit in the last place away from the integers around it and
the double quotient has the same ceiling; beyond that distance the day count
is far from 0, 7 and 14, the numbers it is compared with.  A ceiling of `-0` is
`0` here, and JavaScript compares the two alike. -/
def daysUntil (today : Int) (due : Option Int) : Option Int :=
  match due with
  | none => none
  | some t => some (-((-(t - today)) / msPerDay))

/-- JavaScript `x < c` for a number `x` that may be `NaN`. -/
def jsLt (x : Option Int) (c : Int) : Bool :=
  match x with
  | none => false
  | some v => decide (v < c)

/-- JavaScript `x <= c` for a number `x` that may be `NaN`. -/
def jsLe (x : Option Int) (c : Int) : Bool :=
  match x with
  | none => false
  | some v => decide (v ≤ c)

/-- The function `getStatus` of `OKRView.jsx`.  Its inputs besides `progress`
(always a result of `calculateProgress`) are what it reads from the runtime:
`today`, the time value of `new Date()` after `setHours(0, 0, 0, 0)`, and
`due`, the time value of `new Date(dueDate)`, `none` for an invalid date. -/
def getStatus (progress : Nat) (today : Int) (due : Option Int) : StatusBadge :=
  if 100 ≤ progress then ⟨"Completed", "text-emerald-600", "bg-emerald-100", "CheckCircle2"⟩
  else
    let daysUntilDue := daysUntil today due
    -- Past due and not complete
    if jsLt daysUntilDue 0 then ⟨"Overdue", "text-red-600", "bg-red-100", "AlertTriangle"⟩
    -- Due within 7 days
    else if jsLe daysUntilDue 7 then
      if 80 ≤ progress then ⟨"On Track", "text-blue-600", "bg-blue-100", "TrendingUp"⟩
      else if 50 ≤ progress then ⟨"At Risk", "text-amber-600", "bg-amber-100", "Clock"⟩
      else ⟨"At Risk", "text-red-600", "bg-red-100", "AlertTriangle"⟩
    -- Due within 14 days
    else if jsLe daysUntilDue 14 then
      if 60 ≤ progress then ⟨"On Track", "text-blue-600", "bg-blue-100", "TrendingUp"⟩
      else if 30 ≤ progress then ⟨"In Progress", "text-amber-600", "bg-amber-100", "Clock"⟩
      else ⟨"At Risk", "text-red-600", "bg-red-100", "AlertTriangle"⟩
    -- More than 14 days - standard progress-based status
    else if 70 ≤ progress then ⟨"On Track", "text-blue-600", "bg-blue-100", "TrendingUp"⟩
    else if 40 ≤ progress then ⟨"In Progress", "text-amber-600", "bg-amber-100", "Clock"⟩
    else ⟨"Not Started", "text-gray-600", "bg-gray-100", "Clock"⟩

/-! ## Backlog (`BacklogView.jsx`) -/

/-- A task record of the backlog. -/
structure Task where
  id : Nat
  title : String
  description : String
  priority : String
  status : String
  due : String
  effort : String
  tags : List String
  okrId : Option Nat
  deriving DecidableEq, Repr

/-- The tasks shown in a column, in display order:
`tasks.filter(task => task.status === column)`. -/
def columnTasks (tasks : List Task) (column : String) : List Task :=
  tasks.filter (fun task => task.status = column)

/-- One end of a drag: `{ droppableId, index }`. -/
structure DragLocation where
  droppableId : String
  index : Nat
  deriving DecidableEq, Repr

/-- The argument of `onDragEnd`: `{ source, destination }`, the destination
absent when the drop was cancelled. -/
structure DropResult where
  source : DragLocation
  destination : Option DragLocation
  deriving DecidableEq, Repr

/-- What a call of `onDragEnd` leaves behind: the task list (the argument of
`setTasks`, or the old list when it is not called) and the messages passed to
`logActivity`, in call order. -/
structure DragOutcome where
  tasks : List Task
  logged : List String
  deriving DecidableEq, Repr

/-- JavaScript `xs.splice(start, 0, x)` for `0 ≤ start`: `x` is inserted before
index `start`, at the end when `start` exceeds the length. -/
def splice {α : Type} (xs : List α) (start : Nat) (x : α) : List α :=
  xs.take start ++ x :: xs.drop start

/-- The handler `onDragEnd` of `BacklogView.jsx`.  The result is `none` when
`source.index` is not an index of the source column: `moved` is then
`undefined`, reading `moved.id` throws, and the same-column branch would store
a record that is no task.  The drag library only reports indices of rendered
cards. -/
def onDragEnd (tasks : List Task) (result : DropResult) : Option DragOutcome :=
  match result.destination with
  | none => some ⟨tasks, []⟩
  | some destination =>
    let sourceColumn := result.source.droppableId
    let destColumn := destination.droppableId
    let taskList := tasks
    match (taskList.filter (fun t => t.status = sourceColumn))[result.source.index]? with
    | none => none
    | some moved =>
      if sourceColumn = destColumn then
        -- `.filter((_, i) => i !== source.index)` drops the entry at that index
        let reordered := (taskList.filter (fun t => t.status = sourceColumn)).eraseIdx
          result.source.index
        let reordered := splice reordered destination.index moved
        let updated := taskList.filter (fun t => t.status ≠ sourceColumn) ++
          reordered.map (fun t => { t with status := sourceColumn })
        some ⟨updated, []⟩
      else
        let updated := taskList.map (fun task =>
          if task.id = moved.id then { task with status := destColumn } else task)
        some ⟨updated,
          ["Moved task \x27" ++ moved.title ++ "\x27 from " ++ sourceColumn ++ " to " ++ destColumn]⟩

/-! ## Activity log (`utils/activityLogger`) -/

/-- An entry of the activity log: `{ action, timestamp }`. -/
structure ActivityEntry where
  action : String
  timestamp : String
  deriving DecidableEq, Repr

/-- Modelled from the spec: `logActivity` of `utils/activityLogger`, whose
source is not part of the repository files at hand.  One call records one
entry `{ action, timestamp }` in front of the log, which is kept newest
first.  `timestamp` is the ISO-8601 text of the instant of the call. -/
def logActivity (log : List ActivityEntry) (timestamp action : String) : List ActivityEntry :=
  ⟨action, timestamp⟩ :: log

/-- The activity log after the calls of `logActivity` a handler made, in call
order, all at the instant `timestamp`. -/
def recordAll (log : List ActivityEntry) (timestamp : String) (logged : List String) :
    List ActivityEntry :=
  logged.foldl (fun acc action => logActivity acc timestamp action) log

/-! ## Dates of the runtime -/

/-- The time value of `new Date()` after `setHours(0, 0, 0, 0)`: the local
midnight that began the current local day.  `now` is the time value of the
instant and `offset` the local time minus UTC, in milliseconds, taken as
constant over the day. -/
def localMidnight (now offset : Int) : Int :=
  (now + offset) / msPerDay * msPerDay - offset

/-- The local calendar day of the instant `now`, in days since 1970-01-01. -/
def localDay (now offset : Int) : Int :=
  (now + offset) / msPerDay

/-- The value of a decimal digit. -/
def digitValue (c : Char) : Option Nat :=
  if 48 ≤ c.toNat ∧ c.toNat ≤ 57 then some (c.toNat - 48) else none

/-- The days of a month of the proleptic Gregorian calendar. -/
def daysInMonth (y m : Nat) : Nat :=
  if m = 2 then (if y % 4 = 0 ∧ (y % 100 ≠ 0 ∨ y % 400 = 0) then 29 else 28)
  else if m = 4 ∨ m = 6 ∨ m = 9 ∨ m = 11 then 30 else 31

/-- The day number since 1970-01-01 of the civil date `y`-`m`-`d`. -/
def daysFromCivil (y m d : Nat) : Int :=
  let y1 : Int := if m ≤ 2 then (y : Int) - 1 else y
  let era : Int := y1 / 400
  let yoe : Int := y1 - era * 400
  let mp : Int := ((m : Int) + 9) % 12
  let doy : Int := (153 * mp + 2) / 5 + d - 1
  let doe : Int := yoe * 365 + yoe / 4 - yoe / 100 + doy
  era * 146097 + doe - 719468

/-- The time value of `new Date(s)` for the date-only form `YYYY-MM-DD`, the
form a date input yields: ECMAScript reads it as midnight UTC of that day.
Every other string is `none` here; the functions below take the parser of the
runtime as an argument, and this one serves where a concrete date is needed. -/
def parseDateOnly (s : String) : Option Int :=
  match s.toList with
  | [y1, y2, y3, y4, s1, m1, m2, s2, d1, d2] =>
    if s1 = '-' ∧ s2 = '-' then do
      let a ← digitValue y1
      let b ← digitValue y2
      let c ← digitValue y3
      let e ← digitValue y4
      let f ← digitValue m1
      let g ← digitValue m2
      let h ← digitValue d1
      let i ← digitValue d2
      let y := 1000 * a + 100 * b + 10 * c + e
      let m := 10 * f + g
      let d := 10 * h + i
      if 1 ≤ m ∧ m ≤ 12 ∧ 1 ≤ d ∧ d ≤ daysInMonth y m then
        some (daysFromCivil y m d * msPerDay)
      else none
    else none
  | _ => none

/-! ## Backlog statistics and due badges (`BacklogView.jsx`) -/

/-- JavaScript `x === c` for a number `x` that may be `NaN`. -/
def jsEq (x : Option Int) (c : Int) : Bool :=
  match x with
  | none => false
  | some v => decide (v = c)

/-- The value of `stats` in `BacklogView.jsx`. -/
structure BacklogStats where
  total : Nat
  done : Nat
  inProgress : Nat
  todo : Nat
  highPriority : Nat
  overdue : Nat
  completionRate : Nat
  deriving DecidableEq, Repr

/-- The memo `stats` of `BacklogView.jsx`.  `parseDate s` is the time value of
`new Date(s)`, `none` for an invalid date; `now` is the time value of
`new Date()`. -/
def Backlog.stats (parseDate : String → Option Int) (now : Int) (tasks : List Task) :
    BacklogStats :=
  let total := tasks.length
  let done := (tasks.filter (fun t => t.status = "Done")).length
  let inProgress := (tasks.filter (fun t => t.status = "In Progress")).length
  let todo := (tasks.filter (fun t => t.status = "To Do")).length
  let highPriority := (tasks.filter (fun t => t.priority = "High" ∧ t.status ≠ "Done")).length
  let overdue := (tasks.filter (fun t =>
    if t.status = "Done" ∨ t.due = "" then false
    else jsLt (parseDate t.due) now)).length
  let completionRate :=
    if 0 < total then
      mathRound (Double.mul (Double.div (Double.ofNat done) (Double.ofNat total))
        (Double.ofNat 100))
    else 0
  ⟨total, done, inProgress, todo, highPriority, overdue, completionRate⟩

/-- The text of a number in a template literal, for an integer or `NaN`. -/
def jsNumberText (x : Option Int) : String :=
  match x with
  | none => "NaN"
  | some v => toString v

/-- The function `getDueStatus` of `BacklogView.jsx`; `none` is `null`.
`today` is the time value of `new Date()` after `setHours(0, 0, 0, 0)`. -/
def getDueStatus (parseDate : String → Option Int) (today : Int) (due status : String) :
    Option StatusBadge :=
  if status = "Done" ∨ due = "" then none
  else
    let days := daysUntil today (parseDate due)
    if jsLt days 0 then some ⟨"Overdue", "text-red-600", "bg-red-100", "AlertTriangle"⟩
    else if jsEq days 0 then some ⟨"Due today", "text-amber-600", "bg-amber-100", "Clock"⟩
    else if jsLe days 3 then
      some ⟨jsNumberText days ++ "d left", "text-amber-600", "bg-amber-100", "Clock"⟩
    else none

/-! ## Notes (`NotesView.jsx`) -/

/-- A note record. -/
structure Note where
  id : Nat
  title : String
  content : String
  tags : List String
  date : String
  type : String
  deriving DecidableEq, Repr

/-- The value of `stats` in `NotesView.jsx`. -/
structure NoteStats where
  total : Nat
  meetings : Nat
  decisions : Nat
  actions : Nat
  thisWeek : Nat
  deriving DecidableEq, Repr

/-- The memo `stats` of `NotesView.jsx`, with the parser and the clock of the
runtime as for `Backlog.stats`. -/
def Notes.stats (parseDate : String → Option Int) (now : Int) (notes : List Note) :
    NoteStats :=
  let total := notes.length
  let meetings := (notes.filter (fun n => n.type = "meeting")).length
  let decisions := (notes.filter (fun n => n.type = "decision")).length
  let actions := (notes.filter (fun n => n.type = "action")).length
  let thisWeek := (notes.filter (fun n =>
    if n.date = "" then false
    else
      match parseDate n.date with
      | none => false
      | some noteDate =>
        let weekAgo := now - 7 * 24 * 60 * 60 * 1000
        decide (weekAgo ≤ noteDate) && decide (noteDate ≤ now))).length
  ⟨total, meetings, decisions, actions, thisWeek⟩

/-- The elements of `Array.from(new Set(xs))`: each value is added to the set
when it is first met, and a set lists its values in the order they were
added. -/
def setFrom (xs : List String) : List String :=
  xs.foldl (fun acc x => if x ∈ acc then acc else acc ++ [x]) []

/-- A pair `{ tag, count }` of `tagSuggestions`. -/
structure TagCount where
  tag : String
  count : Nat
  deriving DecidableEq, Repr

/-- The comparator `(a, b) => b.count - a.count` is negative or zero: `a` may
stand before `b`. -/
def countDescending (a b : TagCount) : Prop := b.count ≤ a.count

instance : DecidableRel countDescending :=
  fun a b => inferInstanceAs (Decidable (b.count ≤ a.count))

/-- The value `tagSuggestions` of `NotesView.jsx`.  `Array.prototype.sort` is
stable, and a list has one stable arrangement by a comparator; insertion sort
that puts an element before the first one it may stand before gives it. -/
def tagSuggestions (notes : List Note) : List String :=
  let allTags := notes.flatMap (fun note => note.tags)
  let counted := (setFrom allTags).foldl
    (fun acc tag => acc ++ [⟨tag, (allTags.filter (fun t => t = tag)).length⟩])
    ([] : List TagCount)
  ((counted.insertionSort countDescending).take 6).map (fun t => t.tag)

/-! ## Forms and handlers -/

/-- The code points `String.prototype.trim` removes: the white space and the
line terminators of ECMAScript. -/
def isJsWhitespace (c : Char) : Bool :=
  let n := c.toNat
  decide (n = 0x09 ∨ n = 0x0A ∨ n = 0x0B ∨ n = 0x0C ∨ n = 0x0D ∨ n = 0x20 ∨ n = 0xA0 ∨
    n = 0x1680 ∨ (0x2000 ≤ n ∧ n ≤ 0x200A) ∨ n = 0x2028 ∨ n = 0x2029 ∨ n = 0x202F ∨
    n = 0x205F ∨ n = 0x3000 ∨ n = 0xFEFF)

/-- JavaScript `s.trim()`. -/
def jsTrim (s : String) : String :=
  String.mk ((s.toList.dropWhile isJsWhitespace).reverse.dropWhile isJsWhitespace).reverse

/-- The pieces of a text between its commas. -/
def splitOnComma : List Char → List (List Char)
  | [] => [[]]
  | c :: cs =>
    if c = ',' then [] :: splitOnComma cs
    else
      match splitOnComma cs with
      | [] => [[c]]
      | piece :: pieces => (c :: piece) :: pieces

/-- JavaScript `s.split(',')`. -/
def jsSplitComma (s : String) : List String :=
  (splitOnComma s.toList).map String.mk

/-- The record `if (editId)` lets through: `null` and `0` are falsy. -/
def editTarget (editId : Option Nat) : Option Nat :=
  match editId with
  | none => none
  | some id => if id = 0 then none else some id

/-- What a form handler leaves behind: the collection (the result of the state
setter, or the old collection when it is not called) and the messages passed
to `logActivity`, in call order. -/
structure HandlerOutcome (α : Type) where
  items : List α
  logged : List String
  deriving DecidableEq, Repr

/-- The handler `handleAddOrEditTask` of `BacklogView.jsx`.  `newTask` is the
form state, whose `id` (absent in a fresh form) is overwritten in both
branches; `now` is `Date.now()`. -/
def handleAddOrEditTask (now : Nat) (tasks : List Task) (newTask : Task)
    (editId : Option Nat) : HandlerOutcome Task :=
  if jsTrim newTask.title = "" then ⟨tasks, []⟩
  else
    match editTarget editId with
    | some editId =>
      ⟨tasks.map (fun task => if task.id = editId then { newTask with id := editId } else task),
        ["Edited task: " ++ newTask.title]⟩
    | none =>
      let created := { newTask with id := now }
      ⟨tasks ++ [created], ["Created task: " ++ newTask.title]⟩

/-- An objective record. -/
structure Objective where
  id : Nat
  title : String
  owner : String
  due : String
  keyResults : List KeyResult
  deriving DecidableEq, Repr

/-- JavaScript `a || b` on strings: the empty string is falsy. -/
def jsOrString (a b : String) : String :=
  if a = "" then b else a

/-- The handler `handleAddOrEditObjective` of `OKRView.jsx`, on the form state
`newTitle`, `newDueDate`, `newKeyResults` and `editId`. -/
def handleAddOrEditObjective (now : Nat) (objectives : List Objective)
    (newTitle newDueDate : String) (newKeyResults : List KeyResult) (editId : Option Nat) :
    HandlerOutcome Objective :=
  if jsTrim newTitle = "" then ⟨objectives, []⟩
  else
    let formattedKRs := (newKeyResults.filter (fun kr => jsTrim kr.text ≠ "")).map
      (fun kr => ({ text := kr.text, done := false } : KeyResult))
    match editTarget editId with
    | some editId =>
      ⟨objectives.map (fun obj =>
          if obj.id = editId then
            { obj with title := newTitle, due := jsOrString newDueDate obj.due,
                       keyResults := formattedKRs }
          else obj),
        ["Edited objective: " ++ newTitle]⟩
    | none =>
      let newObj : Objective :=
        { id := now, title := newTitle, owner := "You",
          due := jsOrString newDueDate "End of Quarter", keyResults := formattedKRs }
      ⟨objectives ++ [newObj], ["Created new objective: " ++ newTitle]⟩

/-- The function `toggleKRDone` of `OKRView.jsx`. -/
def toggleKRDone (objectives : List Objective) (objId krIndex : Nat) : List Objective :=
  objectives.map (fun obj =>
    if obj.id = objId then
      let updatedKRs := obj.keyResults.mapIdx (fun i kr =>
        if i = krIndex then { kr with done := !kr.done } else kr)
      { obj with keyResults := updatedKRs }
    else obj)

/-- The form state `newNote` of `NotesView.jsx`; `tags` is the text of the
tags field. -/
structure NoteDraft where
  title : String
  content : String
  tags : String
  date : String
  type : String
  deriving DecidableEq, Repr

/-- The handler `handleAddOrEditNote` of `NotesView.jsx`. -/
def handleAddOrEditNote (now : Nat) (notes : List Note) (newNote : NoteDraft)
    (editId : Option Nat) : HandlerOutcome Note :=
  if jsTrim newNote.title = "" ∨ jsTrim newNote.content = "" then ⟨notes, []⟩
  else
    let formattedNote : Note :=
      { id := (editTarget editId).getD now, title := newNote.title, content := newNote.content,
        tags := ((jsSplitComma newNote.tags).map jsTrim).filter (fun tag => tag ≠ ""),
        date := newNote.date, type := newNote.type }
    match editTarget editId with
    | some editId =>
      ⟨notes.map (fun note => if note.id = editId then formattedNote else note),
        ["Edited note: " ++ formattedNote.title]⟩
    | none =>
      ⟨formattedNote :: notes, ["Created note: " ++ formattedNote.title]⟩

/-! ## Opening a record in its form -/

/-- The form state of `BacklogView.jsx`: `newTask` and `editId`. -/
structure TaskForm where
  newTask : Task
  editId : Option Nat
  deriving DecidableEq, Repr

/-- The function `handleEditClick` of `BacklogView.jsx`: `setNewTask(task)`,
`setEditId(task.id)`. -/
def Backlog.handleEditClick (task : Task) : TaskForm :=
  ⟨task, some task.id⟩

/-- The form state of `OKRView.jsx`: `newTitle`, `newDueDate`, `newKeyResults`
and `editId`. -/
structure ObjectiveForm where
  newTitle : String
  newDueDate : String
  newKeyResults : List KeyResult
  editId : Option Nat
  deriving DecidableEq, Repr

/-- The function `handleEditClick` of `OKRView.jsx`. -/
def OKR.handleEditClick (obj : Objective) : ObjectiveForm :=
  ⟨obj.title, obj.due,
    obj.keyResults.map (fun kr => ({ text := kr.text, done := kr.done || false } : KeyResult)),
    some obj.id⟩

/-- JavaScript `xs.join(sep)` on an array of strings. -/
def jsJoin (sep : String) (xs : List String) : String :=
  String.mk (List.intercalate sep.toList (xs.map String.toList))

/-- The form state of `NotesView.jsx`: `newNote` and `editId`. -/
structure NoteForm where
  newNote : NoteDraft
  editId : Option Nat
  deriving DecidableEq, Repr

/-- The function `handleEdit` of `NotesView.jsx`. -/
def handleEdit (note : Note) : NoteForm :=
  ⟨{ title := note.title, content := note.content, tags := jsJoin ", " note.tags,
     date := note.date, type := jsOrString note.type "meeting" },
    some note.id⟩

/-! ## Deleting a record -/

/-- The handler `handleDeleteTask` of `BacklogView.jsx`; `confirmed` is the
answer of `window.confirm`. -/
def handleDeleteTask (confirmed : Bool) (tasks : List Task) (id : Nat) : HandlerOutcome Task :=
  let deleted := tasks.find? (fun task => task.id = id)
  if confirmed then
    ⟨tasks.filter (fun task => task.id ≠ id),
      match deleted with
      | some deleted => ["Deleted task: " ++ deleted.title]
      | none => []⟩
  else ⟨tasks, []⟩

/-- The handler `handleDeleteObjective` of `OKRView.jsx`. -/
def handleDeleteObjective (confirmed : Bool) (objectives : List Objective) (id : Nat) :
    HandlerOutcome Objective :=
  let deleted := objectives.find? (fun obj => obj.id = id)
  if confirmed then
    ⟨objectives.filter (fun obj => obj.id ≠ id),
      match deleted with
      | some deleted => ["Deleted objective: " ++ deleted.title]
      | none => []⟩
  else ⟨objectives, []⟩

/-- The handler `handleDelete` of `NotesView.jsx`. -/
def handleDelete (confirmed : Bool) (notes : List Note) (id : Nat) : HandlerOutcome Note :=
  let deleted := notes.find? (fun note => note.id = id)
  if confirmed then
    ⟨notes.filter (fun note => note.id ≠ id),
      match deleted with
      | some deleted => ["Deleted note: " ++ deleted.title]
      | none => []⟩
  else ⟨notes, []⟩

/-- The stored state of the application: the values under the keys
`pmLite_backlog_tasks`, `pmLite_okrs`, `pmLiteNotes` and
`pmLite_activity_log`. -/
structure Workspace where
  tasks : List Task
  objectives : List Objective
  notes : List Note
  activity : List ActivityEntry
  deriving DecidableEq, Repr

/-- The stored state after `handleDeleteTask` ran in the backlog view: the
effect of the view writes its own collection, and `logActivity` the log. -/
def Workspace.deleteTask (w : Workspace) (confirmed : Bool) (id : Nat) (timestamp : String) :
    Workspace :=
  let out := handleDeleteTask confirmed w.tasks id
  { w with tasks := out.items, activity := recordAll w.activity timestamp out.logged }

/-- The stored state after `handleDeleteObjective` ran in the OKR view. -/
def Workspace.deleteObjective (w : Workspace) (confirmed : Bool) (id : Nat)
    (timestamp : String) : Workspace :=
  let out := handleDeleteObjective confirmed w.objectives id
  { w with objectives := out.items, activity := recordAll w.activity timestamp out.logged }

/-- The stored state after `handleDelete` ran in the notes view. -/
def Workspace.deleteNote (w : Workspace) (confirmed : Bool) (id : Nat) (timestamp : String) :
    Workspace :=
  let out := handleDelete confirmed w.notes id
  { w with notes := out.items, activity := recordAll w.activity timestamp out.logged }

/-! ## Linked objective of a task (`BacklogView.jsx`) -/

/-- The helper `getOkrById` of `BacklogView.jsx`: `okrs.find(okr => okr.id === id)`,
`none` for `undefined`. -/
def getOkrById (okrs : List Objective) (id : Nat) : Option Objective :=
  okrs.find? (fun okr => okr.id = id)

/-- The objective whose title a task card shows, by the guard
`task.okrId && getOkrById(task.okrId) && (...)`; `none` when nothing is
rendered.  `null` and `0` are falsy. -/
def linkedOkr (okrs : List Objective) (task : Task) : Option Objective :=
  match task.okrId with
  | none => none
  | some id => if id = 0 then none else getOkrById okrs id

/-! ## Loading the tasks (`BacklogView.jsx`) -/

/-- A task record as parsed from storage: the four fields added later may be
missing (`none`; for `okrId` also a stored `null`). -/
structure StoredTask where
  id : Nat
  title : String
  description : Option String
  priority : String
  status : String
  due : String
  effort : Option String
  tags : Option (List String)
  okrId : Option Nat
  deriving DecidableEq, Repr

/-- The constant `defaultTasks` of `BacklogView.jsx`. -/
def defaultTasks : List StoredTask :=
  [⟨1, "Set up CI pipeline", some "Configure GitHub Actions for automated testing and deployment",
      "High", "To Do", "2025-02-15", some "M", some ["Tech Debt"], none⟩,
   ⟨2, "Fix login bug", some "Users unable to login with special characters in password",
      "Medium", "In Progress", "2025-01-10", some "S", some ["Bug"], none⟩,
   ⟨3, "Write test cases", some "Add unit tests for authentication module",
      "Low", "To Do", "2025-02-28", some "L", some ["Tech Debt"], none⟩,
   ⟨4, "Deploy to staging", some "Push latest build to staging environment",
      "High", "Done", "2025-01-05", some "XS", some ["Feature"], none⟩]

/-- The record the loader makes of a stored one:
```
{ ...task, description: task.description || '', effort: task.effort || 'M',
  tags: task.tags || [], okrId: task.okrId || null }
```
A missing field is `undefined`; the empty string and `0` are falsy as well,
an array never is. -/
def migrateTask (task : StoredTask) : Task :=
  { id := task.id, title := task.title,
    description := jsOrString (task.description.getD "") "",
    priority := task.priority, status := task.status, due := task.due,
    effort := jsOrString (task.effort.getD "") "M",
    tags := task.tags.getD [],
    okrId := editTarget task.okrId }

/-- The initial state of `tasks` in `BacklogView.jsx`, for stored text that
parses: `stored` is the parsed array, `none` when the key holds nothing. -/
def loadTasks (stored : Option (List StoredTask)) : List Task :=
  let parsed := stored.getD defaultTasks
  parsed.map migrateTask

/-! ## Dashboard (`DashboardView.jsx`) -/

/-- The value of `metrics` in `DashboardView.jsx`. -/
structure DashboardMetrics where
  completedTasks : Nat
  totalTasks : Nat
  taskCompletionRate : Nat
  inProgressTasks : Nat
  todoTasks : Nat
  okrCount : Nat
  noteCount : Nat
  deriving DecidableEq, Repr

/-- The memo `metrics` of `DashboardView.jsx`. -/
def Dashboard.metrics (tasks : List Task) (okrs : List Objective) (notes : List Note) :
    DashboardMetrics :=
  let completedTasks := (tasks.filter (fun t => t.status = "done" ∨ t.status = "Done")).length
  let totalTasks := tasks.length
  let taskCompletionRate :=
    if 0 < totalTasks then
      mathRound (Double.mul (Double.div (Double.ofNat completedTasks) (Double.ofNat totalTasks))
        (Double.ofNat 100))
    else 0
  let inProgressTasks :=
    (tasks.filter (fun t => t.status = "in-progress" ∨ t.status = "In Progress")).length
  let todoTasks :=
    (tasks.filter (fun t => t.status = "todo" ∨ t.status = "To Do" ∨ t.status = "")).length
  ⟨completedTasks, totalTasks, taskCompletionRate, inProgressTasks, todoTasks,
    okrs.length, notes.length⟩

/-! ## Example data -/

/-- A key result that is done. -/
def krDone : KeyResult := ⟨"kr", true⟩

/-- A key result that is not done. -/
def krOpen : KeyResult := ⟨"kr", false⟩

/-- A list of `n` key results of which the first `c` are done. -/
def krList (c n : Nat) : List KeyResult :=
  List.replicate c krDone ++ List.replicate (n - c) krOpen

/-- A task with the given id, title and status and the defaults of the task
form in its other fields. -/
def mkTask (id : Nat) (title status : String) : Task :=
  ⟨id, title, "", "Medium", status, "", "M", [], none⟩

/-- Task A of the examples, in To Do. -/
def taskA : Task := mkTask 1 "A" "To Do"

/-- Task B of the examples, in To Do. -/
def taskB : Task := mkTask 2 "B" "To Do"

/-- Task C of the examples, in To Do. -/
def taskC : Task := mkTask 3 "C" "To Do"

/-- Task D of the examples, in In Progress. -/
def taskD : Task := mkTask 4 "D" "In Progress"

/-- Task B of the cross-column example, in In Progress. -/
def taskBInProgress : Task := mkTask 2 "B" "In Progress"

/-- A list of `n` tasks of which the first `c` are Done and the others To Do. -/
def tasksDone (c n : Nat) : List Task :=
  List.replicate c (mkTask 1 "t" "Done") ++ List.replicate (n - c) (mkTask 1 "t" "To Do")

/-- A note of the given type with no tags and no date. -/
def mkNote (id : Nat) (type : String) : Note :=
  ⟨id, "note", "text", [], "", type⟩

/-- A note with the given tags. -/
def taggedNote (tags : List String) : Note :=
  ⟨1, "note", "text", tags, "", "meeting"⟩

/-- An objective with two key results, the second one done. -/
def objectiveOne : Objective :=
  ⟨1, "Ship", "You", "End of Quarter", [⟨"a", false⟩, ⟨"b", true⟩]⟩

/-- Another objective, with one key result. -/
def objectiveTwo : Objective :=
  ⟨2, "Grow", "You", "2025-06-30", [⟨"c", false⟩]⟩

/-- Task A linked to the objective with id 1. -/
def taskLinked : Task := { taskA with okrId := some 1 }

/-- A stored state with one linked task, two objectives, one note and an empty
log. -/
def workspaceOne : Workspace :=
  ⟨[taskLinked], [objectiveOne, objectiveTwo], [mkNote 1 "meeting"], []⟩

/-! ## Binary64 reference values -/

/-- The model of binary64 division and multiplication gives the doubles of
`0.1`, `1 / 3`, `0.575`, `0.995` and `0.995 * 100 = 99.5`. -/
theorem double_reference_values :
    Double.div (Double.ofNat 1) (Double.ofNat 10) = ⟨7205759403792794, -56⟩ ∧
      Double.div (Double.ofNat 1) (Double.ofNat 3) = ⟨6004799503160661, -54⟩ ∧
      Double.div (Double.ofNat 23) (Double.ofNat 40) = ⟨5179139571476070, -53⟩ ∧
      Double.div (Double.ofNat 199) (Double.ofNat 200) = ⟨8962163258467287, -53⟩ ∧
      Double.mul (Double.div (Double.ofNat 199) (Double.ofNat 200)) (Double.ofNat 100)
        = ⟨7001690045677568, -46⟩ := by
  decide

/-! ## Lemmas on `calculateProgress` -/

/-- The list `krList c n` has `n` entries. -/
theorem krList_length (c n : Nat) (hc : c ≤ n) : (krList c n).length = n := by
  simp only [krList, List.length_append, List.length_replicate]
  omega

/-- The list `krList c n` holds a key result that is not done when `c < n`. -/
theorem krOpen_mem_krList (c n : Nat) (hc : c < n) : krOpen ∈ krList c n :=
  List.mem_append.mpr (Or.inr (List.mem_replicate.mpr ⟨by omega, rfl⟩))

/-- The progress of `krList c n`: `c` of `n` key results are done. -/
theorem calculateProgress_krList (c n : Nat) (hc : c ≤ n) (hn : 0 < n) :
    calculateProgress (some (krList c n)) =
      mathRound (Double.mul (Double.div (Double.ofNat c) (Double.ofNat n)) (Double.ofNat 100)) := by
  have hlen : (krList c n).length = n := krList_length c n hc
  have hcnt : ((krList c n).filter (fun kr => kr.done)).length = c := by
    simp [krList, List.filter_append, List.filter_replicate, krDone, krOpen]
  simp only [calculateProgress, hlen, hcnt]
  rw [if_neg (by omega)]

/-- A positive integer divided by itself is the double 1. -/
theorem Double.div_self (n : Nat) (hn : 0 < n) :
    Double.div (Double.ofNat n) (Double.ofNat n) = ⟨2 ^ 52, -52⟩ := by
  have hn0 : ¬ (n = 0 ∨ n = 0) := by omega
  have hlt : ¬ (n * 2 ^ 52 < 2 ^ 52 * (n * 2 ^ 0)) := by omega
  have hmod : n * 2 ^ 52 % (n * 2 ^ 0) = 0 := by
    rw [pow_zero, mul_one]
    exact Nat.mul_mod_right n _
  have hdiv : n * 2 ^ 52 / (n * 2 ^ 0) = 2 ^ 52 := by
    rw [pow_zero, mul_one]
    exact Nat.mul_div_cancel_left _ hn
  have hk : (52 : Int) - ((floorLog2 n : Int) - (floorLog2 n : Int)) = 52 := by omega
  have h52 : (52 : Int).toNat = 52 := rfl
  have hm52 : (-(52 : Int)).toNat = 0 := rfl
  simp only [Double.div, Double.ofNat, Double.round, if_neg hn0, hk, h52, hm52, if_neg hlt,
    roundNearestEven, hmod, hdiv]
  rw [if_pos (by omega)]
  rfl

/-- With every key result of a non-empty list done the progress is 100. -/
theorem calculateProgress_all_done (l : List KeyResult) (hl : l ≠ [])
    (hdone : ∀ kr ∈ l, kr.done = true) : calculateProgress (some l) = 100 := by
  have hlen : 0 < l.length := List.length_pos.mpr hl
  have hfilter : l.filter (fun kr => kr.done) = l := List.filter_eq_self.mpr hdone
  simp only [calculateProgress, hfilter, if_neg (Nat.pos_iff_ne_zero.mp hlen),
    Double.div_self l.length hlen]
  decide

set_option maxRecDepth 100000 in
/-- Below 40 entries the double computation of `calculateProgress` gives the
exactly rounded percentage `floor (100 * c / n + 1 / 2)` for every count `c`
of done entries. -/
theorem percent_exact_below_40 :
    ∀ n < 40, ∀ c < n + 1, 0 < n →
      mathRound (Double.mul (Double.div (Double.ofNat c) (Double.ofNat n)) (Double.ofNat 100))
        = (200 * c + n) / (2 * n) := by
  decide

/-! ## Lemmas on `getStatus` -/

/-- The exact ceiling used by `daysUntil` is the ceiling of the rational
quotient by the length of a day. -/
theorem ceilDiv_eq_ceil (x : Int) :
    -((-x) / msPerDay) = ⌈(x : ℚ) / 86400000⌉ := by
  have h := Rat.floor_intCast_div_natCast (-x) 86400000
  have hm : msPerDay = ((86400000 : ℕ) : ℤ) := by decide
  rw [hm, ← h, ← Int.ceil_neg]
  congr 1
  push_cast
  ring

/-- The number of days until a parsed due date, as a ceiling. -/
theorem daysUntil_some (today t : Int) :
    daysUntil today (some t) = some ⌈((t - today : Int) : ℚ) / 86400000⌉ := by
  simp only [daysUntil, ceilDiv_eq_ceil]

/-- A whole number of days after the local midnight is that many days away. -/
theorem daysUntil_add_days (today n : Int) :
    daysUntil today (some (today + n * msPerDay)) = some n := by
  have h : -(today + n * msPerDay - today) = (-n) * msPerDay := by ring
  have hm : msPerDay ≠ 0 := by decide
  simp only [daysUntil, h, Int.mul_ediv_cancel _ hm, neg_neg]

/-- At 100 percent or more the first branch of `getStatus` is taken. -/
theorem getStatus_of_complete (progress : Nat) (today : Int) (due : Option Int)
    (h : 100 ≤ progress) :
    getStatus progress today due =
      ⟨"Completed", "text-emerald-600", "bg-emerald-100", "CheckCircle2"⟩ := by
  simp only [getStatus, if_pos h]

/-- The label of `getStatus` below 100 percent, by the day count `d`. -/
theorem getStatus_label_of_days (progress : Nat) (today t d : Int)
    (hp : progress < 100) (hd : daysUntil today (some t) = some d) :
    (getStatus progress today (some t)).label =
      if d < 0 then "Overdue"
      else if d ≤ 7 then (if 80 ≤ progress then "On Track" else "At Risk")
      else if d ≤ 14 then
        (if 60 ≤ progress then "On Track" else if 30 ≤ progress then "In Progress"
          else "At Risk")
      else if 70 ≤ progress then "On Track"
      else if 40 ≤ progress then "In Progress"
      else "Not Started" := by
  have hnp : ¬ 100 ≤ progress := by omega
  simp only [getStatus, if_neg hnp, hd, jsLt, jsLe, decide_eq_true_eq]
  split_ifs <;> rfl

/-- The label of `getStatus` below 100 percent when the due date does not
parse. -/
theorem getStatus_label_of_invalid (progress : Nat) (today : Int) (hp : progress < 100) :
    (getStatus progress today none).label =
      if 70 ≤ progress then "On Track"
      else if 40 ≤ progress then "In Progress"
      else "Not Started" := by
  have hnp : ¬ 100 ≤ progress := by omega
  simp only [getStatus, if_neg hnp, daysUntil, jsLt, jsLe, Bool.false_eq_true, if_false]
  split_ifs <;> rfl

/-! ## Objective progress and status -/

/-- C1, evaluated where the code leaves the exact formula: with 23 of 40 key
results done, `(23 / 40) * 100` is the double `8092405580431359 * 2 ^ (-47)`,
just below 57.5, so `calculateProgress` returns 57, while
`floor (100 * 23 / 40 + 1 / 2)` is 58.  On an empty or absent list it
returns 0. -/
theorem calculateProgress_23_of_40 :
    Double.mul (Double.div (Double.ofNat 23) (Double.ofNat 40)) (Double.ofNat 100)
        = ⟨8092405580431359, -47⟩ ∧
      calculateProgress (some (krList 23 40)) = 57 ∧
      ⌊(100 * 23 : ℚ) / 40 + 1 / 2⌋ = 58 ∧
      calculateProgress (some []) = 0 ∧ calculateProgress none = 0 := by
  refine ⟨by decide, ?_, ?_, by decide, by decide⟩
  · rw [calculateProgress_krList 23 40 (by decide) (by decide)]
    decide
  · rw [Int.floor_eq_iff]
    norm_num

/-- C2: for every progress of at least 100 and every due value, parsed or
not, before or after today, `getStatus` has the label "Completed". -/
theorem getStatus_completed (progress : Nat) (today : Int) (due : Option Int)
    (h : 100 ≤ progress) :
    (getStatus progress today due).label = "Completed" := by
  rw [getStatus_of_complete progress today due h]

/-- Witness of `getStatus_completed`: progress 100 with a due date one
millisecond before today, one far after it, and an unparseable one. -/
theorem getStatus_completed_witness :
    100 ≤ 100 ∧ (getStatus 100 0 (some (-1))).label = "Completed" ∧
      (getStatus 100 0 (some 8640000000)).label = "Completed" ∧
      (getStatus 100 0 none).label = "Completed" :=
  ⟨by decide, getStatus_completed 100 0 (some (-1)) (by decide),
    getStatus_completed 100 0 (some 8640000000) (by decide),
    getStatus_completed 100 0 none (by decide)⟩

/-- C3: for progress below 100 and a parseable due date, with
`d = ceil ((due - today) / one day)`: the label is "Overdue" when `d < 0`;
when `0 ≤ d ≤ 7`, "On Track" from 80 percent and "At Risk" below; when
`8 ≤ d ≤ 14`, "On Track" from 60 percent, "In Progress" from 30 to 59, and
"At Risk" below. -/
theorem getStatus_near_due (progress : Nat) (today t d : Int)
    (hp : progress < 100) (hd : d = ⌈((t - today : Int) : ℚ) / 86400000⌉) :
    (d < 0 → (getStatus progress today (some t)).label = "Overdue") ∧
    (0 ≤ d → d ≤ 7 → (getStatus progress today (some t)).label =
      if 80 ≤ progress then "On Track" else "At Risk") ∧
    (8 ≤ d → d ≤ 14 → (getStatus progress today (some t)).label =
      if 60 ≤ progress then "On Track"
      else if 30 ≤ progress then "In Progress" else "At Risk") := by
  have h := getStatus_label_of_days progress today t d hp (by rw [daysUntil_some, hd])
  refine ⟨fun h0 => ?_, fun h0 h7 => ?_, fun h8 h14 => ?_⟩
  · rw [h, if_pos h0]
  · rw [h, if_neg (by omega), if_pos h7]
  · rw [h, if_neg (by omega), if_neg (by omega), if_pos h14]

/-- Witness of `getStatus_near_due`: progress 45 and a due date ten days and
one millisecond after today's midnight, which counts as eleven days. -/
theorem getStatus_near_due_witness :
    (45 < 100 ∧ (11 : Int) = ⌈(((864000001 : Int) - 0 : Int) : ℚ) / 86400000⌉) ∧
      ((11 : Int) < 0 → (getStatus 45 0 (some 864000001)).label = "Overdue") ∧
      ((0 : Int) ≤ 11 → (11 : Int) ≤ 7 → (getStatus 45 0 (some 864000001)).label =
        if 80 ≤ 45 then "On Track" else "At Risk") ∧
      ((8 : Int) ≤ 11 → (11 : Int) ≤ 14 → (getStatus 45 0 (some 864000001)).label =
        if 60 ≤ 45 then "On Track"
        else if 30 ≤ 45 then "In Progress" else "At Risk") :=
  have hd : (11 : Int) = ⌈(((864000001 : Int) - 0 : Int) : ℚ) / 86400000⌉ := by
    symm
    rw [Int.ceil_eq_iff]
    norm_num
  ⟨⟨by decide, hd⟩, getStatus_near_due 45 0 864000001 11 (by decide) hd⟩

/-- C4: for progress below 100 and a due value that is a date more than 14
days after today's midnight or no parseable date at all, the label is
"On Track" from 70 percent, "In Progress" from 40 to 69, and "Not Started"
below; so 90 percent due in 20 days is "On Track" and 0 percent due in 30
days is "Not Started". -/
theorem getStatus_far_due (progress : Nat) (today : Int) (due : Option Int)
    (hp : progress < 100) (hd : ∀ t, due = some t → 14 * msPerDay < t - today) :
    (getStatus progress today due).label =
      (if 70 ≤ progress then "On Track"
       else if 40 ≤ progress then "In Progress" else "Not Started") ∧
    (getStatus 90 today (some (today + 20 * msPerDay))).label = "On Track" ∧
    (getStatus 0 today (some (today + 30 * msPerDay))).label = "Not Started" := by
  refine ⟨?_, ?_, ?_⟩
  · cases due with
    | none => exact getStatus_label_of_invalid progress today hp
    | some t =>
      have h14 := hd t rfl
      have hd14 : 14 < -((-(t - today)) / msPerDay) := by
        unfold msPerDay at h14 ⊢
        omega
      rw [getStatus_label_of_days progress today t _ hp rfl, if_neg (by omega),
        if_neg (by omega), if_neg (by omega)]
  · rw [getStatus_label_of_days 90 today _ 20 (by decide) (daysUntil_add_days today 20)]
    rfl
  · rw [getStatus_label_of_days 0 today _ 30 (by decide) (daysUntil_add_days today 30)]
    rfl

/-- Witness of `getStatus_far_due`: progress 55 with a due date 15 days after
today's midnight. -/
theorem getStatus_far_due_witness :
    (55 < 100 ∧ ∀ t, some (15 * msPerDay) = some t → 14 * msPerDay < t - 0) ∧
      ((getStatus 55 0 (some (15 * msPerDay))).label =
        (if 70 ≤ 55 then "On Track"
         else if 40 ≤ 55 then "In Progress" else "Not Started") ∧
      (getStatus 90 0 (some (0 + 20 * msPerDay))).label = "On Track" ∧
      (getStatus 0 0 (some (0 + 30 * msPerDay))).label = "Not Started") :=
  have hd : ∀ t, some (15 * msPerDay) = some t → 14 * msPerDay < t - 0 := by
    intro t h
    cases h
    decide
  ⟨⟨by decide, hd⟩, getStatus_far_due 55 0 (some (15 * msPerDay)) (by decide) hd⟩

/-- C5 as stated fails: at 50 percent with a due date five days before
today's midnight the label is not "At Risk". -/
theorem getStatus_50_five_days_ago_not_at_risk :
    (getStatus 50 0 (some (0 - 5 * msPerDay))).label ≠ "At Risk" := by
  decide

/-- C5, amended: at 50 percent with a due date five days before today the
label is "Overdue".  `off` is the distance of the parsed due date from the
local midnight of its day (a date-only string parses to midnight UTC), less
than a day either way. -/
theorem getStatus_50_five_days_ago (today off : Int)
    (hlo : -msPerDay < off) (hhi : off < msPerDay) :
    (getStatus 50 today (some (today - 5 * msPerDay + off))).label = "Overdue" := by
  have hd : -((-(today - 5 * msPerDay + off - today)) / msPerDay) < 0 := by
    unfold msPerDay at hlo hhi ⊢
    omega
  rw [getStatus_label_of_days 50 today _ _ (by decide) rfl, if_pos hd]

/-- Witness of `getStatus_50_five_days_ago`: the due date exactly five days
before today's midnight. -/
theorem getStatus_50_five_days_ago_witness :
    (-msPerDay < 0 ∧ (0 : Int) < msPerDay) ∧
      (getStatus 50 0 (some (0 - 5 * msPerDay + 0))).label = "Overdue" :=
  ⟨⟨by decide, by decide⟩, getStatus_50_five_days_ago 0 0 (by decide) (by decide)⟩

/-- C6, evaluated where the code leaves it: an objective with 200 key results
of which 199 are done has progress `Math.round(99.5) = 100` and, whatever the
due value, the label "Completed", although one key result is not done. -/
theorem completed_with_open_key_result (today : Int) (due : Option Int) :
    calculateProgress (some (krList 199 200)) = 100 ∧
      (getStatus (calculateProgress (some (krList 199 200))) today due).label = "Completed" ∧
      (krList 199 200).length = 200 ∧
      ¬ (∀ kr ∈ krList 199 200, kr.done = true) := by
  have hprog : calculateProgress (some (krList 199 200)) = 100 := by
    rw [calculateProgress_krList 199 200 (by decide) (by decide)]
    decide
  refine ⟨hprog, ?_, ?_, ?_⟩
  · rw [hprog, getStatus_of_complete 100 today due (by decide)]
  · exact krList_length 199 200 (by decide)
  · intro h
    exact absurd (h krOpen (krOpen_mem_krList 199 200 (by decide))) (by decide)

/-- C7, evaluated where the code leaves it: at 65 percent an objective due in
10 days is "On Track" (60 percent suffice from 8 to 14 days), and the same
objective due in 20 days is "In Progress" (70 percent are asked beyond 14
days). -/
theorem on_track_lost_with_more_time (today : Int) :
    (getStatus 65 today (some (today + 10 * msPerDay))).label = "On Track" ∧
      (getStatus 65 today (some (today + 20 * msPerDay))).label = "In Progress" := by
  constructor
  · rw [getStatus_label_of_days 65 today _ 10 (by decide) (daysUntil_add_days today 10)]
    rfl
  · rw [getStatus_label_of_days 65 today _ 20 (by decide) (daysUntil_add_days today 20)]
    rfl

/-! ## Backlog reordering -/

/-- Inserting into the empty list. -/
theorem splice_nil {α : Type} (j : Nat) (x : α) : splice [] j x = [x] := by
  simp [splice]

/-- Inserting at the front. -/
theorem splice_zero {α : Type} (xs : List α) (x : α) : splice xs 0 x = x :: xs := by
  simp [splice]

/-- Inserting behind the head. -/
theorem splice_cons_succ {α : Type} (a : α) (xs : List α) (j : Nat) (x : α) :
    splice (a :: xs) (j + 1) x = a :: splice xs j x := by
  simp [splice]

/-- The inserted element sits at the index asked for. -/
theorem splice_getElem? {α : Type} (xs : List α) (j : Nat) (x : α) (h : j ≤ xs.length) :
    (splice xs j x)[j]? = some x := by
  induction xs generalizing j with
  | nil =>
    have hj : j = 0 := by simpa using h
    subst hj
    simp [splice_nil]
  | cons a xs ih =>
    cases j with
    | zero => simp [splice_zero]
    | succ j =>
      rw [splice_cons_succ]
      simpa using ih j (by simpa using h)

/-- Removing the inserted element gives the list back. -/
theorem splice_eraseIdx {α : Type} (xs : List α) (j : Nat) (x : α) (h : j ≤ xs.length) :
    (splice xs j x).eraseIdx j = xs := by
  induction xs generalizing j with
  | nil =>
    have hj : j = 0 := by simpa using h
    subst hj
    simp [splice_nil]
  | cons a xs ih =>
    cases j with
    | zero => simp [splice_zero]
    | succ j =>
      rw [splice_cons_succ, List.eraseIdx_cons_succ, ih j (by simpa using h)]

/-- The elements after an insertion. -/
theorem mem_splice {α : Type} (xs : List α) (j : Nat) (x y : α) :
    y ∈ splice xs j x ↔ y = x ∨ y ∈ xs := by
  constructor
  · intro hy
    simp only [splice, List.mem_append, List.mem_cons] at hy
    rcases hy with hy | hy | hy
    · exact Or.inr (List.mem_of_mem_take hy)
    · exact Or.inl hy
    · exact Or.inr (List.mem_of_mem_drop hy)
  · intro hy
    rcases hy with hy | hy
    · simp [splice, hy]
    · have hsplit : y ∈ xs.take j ++ xs.drop j := by rwa [List.take_append_drop]
      simp only [splice, List.mem_append, List.mem_cons]
      rcases List.mem_append.mp hsplit with h1 | h1
      · exact Or.inl h1
      · exact Or.inr (Or.inr h1)

/-- Stamping a task with the status it already has changes nothing. -/
theorem stamp_status_self (t : Task) (c : String) (h : t.status = c) :
    { t with status := c } = t := by
  cases t
  simp_all

/-- The tasks of a column have its status. -/
theorem status_of_mem_columnTasks (tasks : List Task) (c : String) (t : Task)
    (h : t ∈ columnTasks tasks c) : t.status = c := by
  simpa using (List.mem_filter.mp h).2

/-- The outcome of a drop in the column the drag began in. -/
theorem onDragEnd_same_column_eq (tasks : List Task) (c : String) (i j : Nat) (moved : Task)
    (h : (columnTasks tasks c)[i]? = some moved) :
    onDragEnd tasks ⟨⟨c, i⟩, some ⟨c, j⟩⟩ =
      some ⟨tasks.filter (fun t => t.status ≠ c) ++
        splice ((columnTasks tasks c).eraseIdx i) j moved, []⟩ := by
  have hall : ∀ t ∈ splice ((columnTasks tasks c).eraseIdx i) j moved, t.status = c := by
    intro t ht
    rcases (mem_splice _ _ _ _).mp ht with ht | ht
    · rw [ht]
      exact status_of_mem_columnTasks tasks c moved (List.getElem?_mem h)
    · exact status_of_mem_columnTasks tasks c t (List.mem_of_mem_eraseIdx ht)
  have hmap : (splice ((columnTasks tasks c).eraseIdx i) j moved).map
      (fun t => { t with status := c }) = splice ((columnTasks tasks c).eraseIdx i) j moved := by
    conv_rhs => rw [← List.map_id (splice ((columnTasks tasks c).eraseIdx i) j moved)]
    exact List.map_congr_left (fun t ht => stamp_status_self t c (hall t ht))
  unfold columnTasks at h hmap
  simp only [onDragEnd, h, if_true, hmap, columnTasks]

/-- The column of a rebuilt list: tasks of other columns first, then tasks of
column `c`. -/
theorem columnTasks_rebuilt (tasks col : List Task) (c : String)
    (hcol : ∀ t ∈ col, t.status = c) :
    columnTasks (tasks.filter (fun t => t.status ≠ c) ++ col) c = col := by
  have h1 : (tasks.filter (fun t => t.status ≠ c)).filter (fun task => task.status = c) = [] := by
    rw [List.filter_eq_nil_iff]
    intro t ht
    simpa using (List.mem_filter.mp ht).2
  have h2 : col.filter (fun task => task.status = c) = col := by
    rw [List.filter_eq_self]
    intro t ht
    simpa using hcol t ht
  simp only [columnTasks, List.filter_append, h1, h2, List.nil_append]

/-- Another column of a rebuilt list is the column of the old list. -/
theorem columnTasks_rebuilt_other (tasks col : List Task) (c other : String)
    (hcol : ∀ t ∈ col, t.status = c) (hne : other ≠ c) :
    columnTasks (tasks.filter (fun t => t.status ≠ c) ++ col) other =
      columnTasks tasks other := by
  have h1 : (tasks.filter (fun t => t.status ≠ c)).filter (fun task => task.status = other)
      = tasks.filter (fun task => task.status = other) := by
    rw [List.filter_filter]
    apply List.filter_congr
    intro t _
    by_cases ht : t.status = other
    · simp [ht, hne]
    · simp [ht]
  have h2 : col.filter (fun task => task.status = other) = [] := by
    rw [List.filter_eq_nil_iff]
    intro t ht
    have := hcol t ht
    simp only [decide_eq_true_eq]
    intro h
    exact hne (h.symm.trans this)
  simp only [columnTasks, List.filter_append, h1, h2, List.append_nil]

/-- The outcome of a drop in another column than the drag began in. -/
theorem onDragEnd_cross_column_eq (tasks : List Task) (s d : String) (i j : Nat)
    (moved : Task) (hsd : s ≠ d) (h : (columnTasks tasks s)[i]? = some moved) :
    onDragEnd tasks ⟨⟨s, i⟩, some ⟨d, j⟩⟩ =
      some ⟨tasks.map (fun task =>
          if task.id = moved.id then { task with status := d } else task),
        ["Moved task \x27" ++ moved.title ++ "\x27 from " ++ s ++ " to " ++ d]⟩ := by
  unfold columnTasks at h
  simp only [onDragEnd, h, if_neg hsd]

/-- C8: a drop at index `j` of the column `c` the drag began in, from index
`i`, both below the number of tasks of the column: the task that was at index
`i` of the column is at index `j` of the column afterwards, and the column
without it is the old column without it, in the same order.  For A, B, C all
in To Do, from 0 to 2, the column becomes B, C, A. -/
theorem onDragEnd_same_column (tasks : List Task) (c : String) (i j : Nat)
    (hi : i < (columnTasks tasks c).length) (hj : j < (columnTasks tasks c).length) :
    (∃ moved out, (columnTasks tasks c)[i]? = some moved ∧
      onDragEnd tasks ⟨⟨c, i⟩, some ⟨c, j⟩⟩ = some out ∧
      (columnTasks out.tasks c)[j]? = some moved ∧
      (columnTasks out.tasks c).eraseIdx j = (columnTasks tasks c).eraseIdx i) ∧
    (onDragEnd [taskA, taskB, taskC] ⟨⟨"To Do", 0⟩, some ⟨"To Do", 2⟩⟩).map
      (fun out => columnTasks out.tasks "To Do") = some [taskB, taskC, taskA] := by
  refine ⟨?_, by decide⟩
  have hmoved : (columnTasks tasks c)[i]? = some ((columnTasks tasks c)[i]) :=
    List.getElem?_eq_getElem hi
  have hlen : j ≤ ((columnTasks tasks c).eraseIdx i).length := by
    rw [List.length_eraseIdx, if_pos hi]
    omega
  have hall : ∀ t ∈ splice ((columnTasks tasks c).eraseIdx i) j ((columnTasks tasks c)[i]),
      t.status = c := by
    intro t ht
    rcases (mem_splice _ _ _ _).mp ht with ht | ht
    · rw [ht]
      exact status_of_mem_columnTasks tasks c _ (List.getElem?_mem hmoved)
    · exact status_of_mem_columnTasks tasks c t (List.mem_of_mem_eraseIdx ht)
  refine ⟨(columnTasks tasks c)[i], _, hmoved,
    onDragEnd_same_column_eq tasks c i j _ hmoved, ?_, ?_⟩
  · simp only [columnTasks_rebuilt tasks _ c hall]
    exact splice_getElem? _ j _ hlen
  · simp only [columnTasks_rebuilt tasks _ c hall]
    exact splice_eraseIdx _ j _ hlen

/-- Witness of `onDragEnd_same_column`: D, A, B, C with D in In Progress and
the others in To Do; the card at index 2 of To Do is dropped at index 0. -/
theorem onDragEnd_same_column_witness :
    (2 < (columnTasks [taskD, taskA, taskB, taskC] "To Do").length ∧
      0 < (columnTasks [taskD, taskA, taskB, taskC] "To Do").length) ∧
    ((∃ moved out, (columnTasks [taskD, taskA, taskB, taskC] "To Do")[2]? = some moved ∧
      onDragEnd [taskD, taskA, taskB, taskC] ⟨⟨"To Do", 2⟩, some ⟨"To Do", 0⟩⟩ = some out ∧
      (columnTasks out.tasks "To Do")[0]? = some moved ∧
      (columnTasks out.tasks "To Do").eraseIdx 0 =
        (columnTasks [taskD, taskA, taskB, taskC] "To Do").eraseIdx 2) ∧
    (onDragEnd [taskA, taskB, taskC] ⟨⟨"To Do", 0⟩, some ⟨"To Do", 2⟩⟩).map
      (fun out => columnTasks out.tasks "To Do") = some [taskB, taskC, taskA]) :=
  ⟨⟨by decide, by decide⟩,
    onDragEnd_same_column [taskD, taskA, taskB, taskC] "To Do" 2 0 (by decide) (by decide)⟩

/-- C9: a drop in the column `c` the drag began in, from a valid index `i`,
stores the tasks of the other columns in their old order followed by the
reordered column: every task of another column stands before every task of
column `c`, and every other column shows what it showed before. -/
theorem onDragEnd_same_column_rebuild (tasks : List Task) (c : String) (i j : Nat)
    (hi : i < (columnTasks tasks c).length) :
    ∃ out, onDragEnd tasks ⟨⟨c, i⟩, some ⟨c, j⟩⟩ = some out ∧
      out.tasks = tasks.filter (fun t => t.status ≠ c) ++ columnTasks out.tasks c ∧
      (∀ (a b : Nat) (ta tb : Task), out.tasks[a]? = some ta → out.tasks[b]? = some tb →
        ta.status ≠ c → tb.status = c → a < b) ∧
      (∀ other, other ≠ c → columnTasks out.tasks other = columnTasks tasks other) := by
  have hmoved : (columnTasks tasks c)[i]? = some ((columnTasks tasks c)[i]) :=
    List.getElem?_eq_getElem hi
  have hall : ∀ t ∈ splice ((columnTasks tasks c).eraseIdx i) j ((columnTasks tasks c)[i]),
      t.status = c := by
    intro t ht
    rcases (mem_splice _ _ _ _).mp ht with ht | ht
    · rw [ht]
      exact status_of_mem_columnTasks tasks c _ (List.getElem?_mem hmoved)
    · exact status_of_mem_columnTasks tasks c t (List.mem_of_mem_eraseIdx ht)
  refine ⟨_, onDragEnd_same_column_eq tasks c i j _ hmoved, ?_, ?_, ?_⟩
  · simp only [columnTasks_rebuilt tasks _ c hall]
  · intro a b ta tb ha hb hta htb
    simp only at ha hb
    by_contra hab
    have hba : b ≤ a := by omega
    by_cases hb1 : b < (tasks.filter (fun t => t.status ≠ c)).length
    · rw [List.getElem?_append_left hb1] at hb
      have := (List.mem_filter.mp (List.getElem?_mem hb)).2
      simp only [ne_eq, decide_not, Bool.not_eq_true', decide_eq_false_iff_not] at this
      exact this htb
    · rw [List.getElem?_append_right (by omega)] at ha
      exact hta (hall ta (List.getElem?_mem ha))
  · intro other hne
    exact columnTasks_rebuilt_other tasks _ c other hall hne

/-- Witness of `onDragEnd_same_column_rebuild`: A, D, B, C with D in In
Progress between tasks of To Do; the first card of To Do is dropped at
index 1. -/
theorem onDragEnd_same_column_rebuild_witness :
    0 < (columnTasks [taskA, taskD, taskB, taskC] "To Do").length ∧
    ∃ out, onDragEnd [taskA, taskD, taskB, taskC] ⟨⟨"To Do", 0⟩, some ⟨"To Do", 1⟩⟩ = some out ∧
      out.tasks = [taskA, taskD, taskB, taskC].filter (fun t => t.status ≠ "To Do") ++
        columnTasks out.tasks "To Do" ∧
      (∀ (a b : Nat) (ta tb : Task), out.tasks[a]? = some ta → out.tasks[b]? = some tb →
        ta.status ≠ "To Do" → tb.status = "To Do" → a < b) ∧
      (∀ other, other ≠ "To Do" →
        columnTasks out.tasks other = columnTasks [taskA, taskD, taskB, taskC] other) :=
  ⟨by decide,
    onDragEnd_same_column_rebuild [taskA, taskD, taskB, taskC] "To Do" 0 1 (by decide)⟩

/-- C10: a drop in another column `d` than the column `s` the drag began in,
on a task list with pairwise distinct ids and from a valid index `i` of
column `s`: the stored list has the old length and order, the moved task
stands where it stood with status `d` and its other fields as they were, every
other task is as it was, and the destination index does not change the
result. -/
theorem onDragEnd_cross_column (tasks : List Task) (s d : String) (i j : Nat)
    (hid : (tasks.map (fun t => t.id)).Nodup) (hsd : s ≠ d)
    (hi : i < (columnTasks tasks s).length) :
    ∃ moved out, (columnTasks tasks s)[i]? = some moved ∧
      onDragEnd tasks ⟨⟨s, i⟩, some ⟨d, j⟩⟩ = some out ∧
      out.tasks.length = tasks.length ∧
      (∃ k : Nat, tasks[k]? = some moved ∧ out.tasks[k]? = some { moved with status := d }) ∧
      (∀ (k : Nat) (t : Task), tasks[k]? = some t → t ≠ moved → out.tasks[k]? = some t) ∧
      (∀ (k : Nat) (t : Task), tasks[k]? = some t → t = moved →
        out.tasks[k]? = some { moved with status := d }) ∧
      (∀ j2, onDragEnd tasks ⟨⟨s, i⟩, some ⟨d, j2⟩⟩ = some out) := by
  have hmoved : (columnTasks tasks s)[i]? = some ((columnTasks tasks s)[i]) :=
    List.getElem?_eq_getElem hi
  have hmem : (columnTasks tasks s)[i] ∈ tasks :=
    (List.mem_filter.mp (List.getElem?_mem hmoved)).1
  have hinj : ∀ t ∈ tasks, t.id = ((columnTasks tasks s)[i]).id → t = (columnTasks tasks s)[i] :=
    fun t ht hEq => List.inj_on_of_nodup_map hid ht hmem hEq
  have hat : ∀ (k : Nat) (t : Task), tasks[k]? = some t → t = (columnTasks tasks s)[i] →
      (tasks.map (fun task => if task.id = ((columnTasks tasks s)[i]).id
        then { task with status := d } else task))[k]? =
        some { (columnTasks tasks s)[i] with status := d } := by
    intro k t hk ht
    rw [List.getElem?_map, hk, ht]
    simp
  refine ⟨(columnTasks tasks s)[i], _, hmoved,
    onDragEnd_cross_column_eq tasks s d i j _ hsd hmoved, ?_, ?_, ?_, hat, ?_⟩
  · simp
  · obtain ⟨k, hk⟩ := List.mem_iff_getElem?.mp hmem
    exact ⟨k, hk, hat k _ hk rfl⟩
  · intro k t hk hne
    simp only [List.getElem?_map, hk, Option.map_some']
    rw [if_neg (fun hEq => hne (hinj t (List.getElem?_mem hk) hEq))]
  · intro j2
    exact onDragEnd_cross_column_eq tasks s d i j2 _ hsd hmoved

/-- Witness of `onDragEnd_cross_column`: A, D, B with D in In Progress; the
second card of To Do, B, is dropped in Done. -/
theorem onDragEnd_cross_column_witness :
    (([taskA, taskD, taskB].map (fun t => t.id)).Nodup ∧ "To Do" ≠ "Done" ∧
      1 < (columnTasks [taskA, taskD, taskB] "To Do").length) ∧
    ∃ moved out, (columnTasks [taskA, taskD, taskB] "To Do")[1]? = some moved ∧
      onDragEnd [taskA, taskD, taskB] ⟨⟨"To Do", 1⟩, some ⟨"Done", 0⟩⟩ = some out ∧
      out.tasks.length = [taskA, taskD, taskB].length ∧
      (∃ k : Nat, [taskA, taskD, taskB][k]? = some moved ∧
        out.tasks[k]? = some { moved with status := "Done" }) ∧
      (∀ (k : Nat) (t : Task), [taskA, taskD, taskB][k]? = some t → t ≠ moved → out.tasks[k]? = some t) ∧
      (∀ (k : Nat) (t : Task), [taskA, taskD, taskB][k]? = some t → t = moved →
        out.tasks[k]? = some { moved with status := "Done" }) ∧
      (∀ j2, onDragEnd [taskA, taskD, taskB] ⟨⟨"To Do", 1⟩, some ⟨"Done", j2⟩⟩ = some out) :=
  ⟨⟨by decide, by decide, by decide⟩,
    onDragEnd_cross_column [taskA, taskD, taskB] "To Do" "Done" 1 0 (by decide) (by decide)
      (by decide)⟩

/-! ## Activity of a cross-column move -/

/-- C11: a drop in another column `d` than the column `s` the drag began in,
from a valid index, calls `logActivity` once, with the text
"Moved task 'T' from s to d" for the title `T` of the moved task, so the log
gains that one entry.  Moving A from To Do to In Progress in A (To Do),
B (In Progress) sets the status of A to In Progress and logs
"Moved task 'A' from To Do to In Progress". -/
theorem onDragEnd_cross_column_logged (tasks : List Task) (s d : String) (i j : Nat)
    (log : List ActivityEntry) (timestamp : String)
    (hsd : s ≠ d) (hi : i < (columnTasks tasks s).length) :
    (∃ moved out, (columnTasks tasks s)[i]? = some moved ∧
      onDragEnd tasks ⟨⟨s, i⟩, some ⟨d, j⟩⟩ = some out ∧
      out.logged = ["Moved task \x27" ++ moved.title ++ "\x27 from " ++ s ++ " to " ++ d] ∧
      recordAll log timestamp out.logged =
        ⟨"Moved task \x27" ++ moved.title ++ "\x27 from " ++ s ++ " to " ++ d, timestamp⟩
          :: log) ∧
    onDragEnd [taskA, taskBInProgress] ⟨⟨"To Do", 0⟩, some ⟨"In Progress", 0⟩⟩ =
      some ⟨[{ taskA with status := "In Progress" }, taskBInProgress],
        ["Moved task \x27A\x27 from To Do to In Progress"]⟩ := by
  refine ⟨?_, by decide⟩
  have hmoved : (columnTasks tasks s)[i]? = some ((columnTasks tasks s)[i]) :=
    List.getElem?_eq_getElem hi
  exact ⟨(columnTasks tasks s)[i], _, hmoved,
    onDragEnd_cross_column_eq tasks s d i j _ hsd hmoved, rfl, rfl⟩

/-- Witness of `onDragEnd_cross_column_logged`: A, D, B with D in In Progress;
the second card of To Do, B, is dropped in Done, on an empty log. -/
theorem onDragEnd_cross_column_logged_witness :
    ("To Do" ≠ "Done" ∧ 1 < (columnTasks [taskA, taskD, taskB] "To Do").length) ∧
    ((∃ moved out, (columnTasks [taskA, taskD, taskB] "To Do")[1]? = some moved ∧
      onDragEnd [taskA, taskD, taskB] ⟨⟨"To Do", 1⟩, some ⟨"Done", 0⟩⟩ = some out ∧
      out.logged =
        ["Moved task \x27" ++ moved.title ++ "\x27 from " ++ "To Do" ++ " to " ++ "Done"] ∧
      recordAll [] "2025-06-15T11:00:00.000Z" out.logged =
        ⟨"Moved task \x27" ++ moved.title ++ "\x27 from " ++ "To Do" ++ " to " ++ "Done",
          "2025-06-15T11:00:00.000Z"⟩ :: []) ∧
    onDragEnd [taskA, taskBInProgress] ⟨⟨"To Do", 0⟩, some ⟨"In Progress", 0⟩⟩ =
      some ⟨[{ taskA with status := "In Progress" }, taskBInProgress],
        ["Moved task \x27A\x27 from To Do to In Progress"]⟩) :=
  ⟨⟨by decide, by decide⟩,
    onDragEnd_cross_column_logged [taskA, taskD, taskB] "To Do" "Done" 1 0 []
      "2025-06-15T11:00:00.000Z" (by decide) (by decide)⟩

/-! ## Due badges of tasks -/

/-- The badge of `getDueStatus` for a task that is not Done and has a due text,
by the day count. -/
theorem getDueStatus_of_days (parseDate : String → Option Int) (today : Int)
    (due status : String) (d : Int) (hs : status ≠ "Done") (hdue : due ≠ "")
    (hd : daysUntil today (parseDate due) = some d) :
    getDueStatus parseDate today due status =
      if d < 0 then some ⟨"Overdue", "text-red-600", "bg-red-100", "AlertTriangle"⟩
      else if d = 0 then some ⟨"Due today", "text-amber-600", "bg-amber-100", "Clock"⟩
      else if d ≤ 3 then some ⟨toString d ++ "d left", "text-amber-600", "bg-amber-100", "Clock"⟩
      else none := by
  have hguard : ¬ (status = "Done" ∨ due = "") := fun h => h.elim hs hdue
  simp only [getDueStatus, if_neg hguard, hd, jsLt, jsEq, jsLe, jsNumberText,
    decide_eq_true_eq]

/-- A task due on the local calendar day of `now`, as a date-only text, in a
zone `offset` away from UTC: the badge is "Due today" at and west of UTC and
"1d left" east of it. -/
theorem getDueStatus_due_today (parseDate : String → Option Int) (now offset : Int)
    (due status : String) (hs : status ≠ "Done") (hdue : due ≠ "")
    (hparse : parseDate due = some (localDay now offset * msPerDay))
    (hlo : -msPerDay < offset) (hhi : offset < msPerDay) :
    getDueStatus parseDate (localMidnight now offset) due status =
      if 0 < offset then some ⟨"1d left", "text-amber-600", "bg-amber-100", "Clock"⟩
      else some ⟨"Due today", "text-amber-600", "bg-amber-100", "Clock"⟩ := by
  have hdiff : localDay now offset * msPerDay - localMidnight now offset = offset := by
    simp only [localDay, localMidnight]
    ring
  by_cases hpos : 0 < offset
  · have hd : daysUntil (localMidnight now offset) (parseDate due) = some 1 := by
      simp only [hparse, daysUntil, hdiff]
      congr 1
      unfold msPerDay at hlo hhi ⊢
      omega
    rw [getDueStatus_of_days parseDate _ due status 1 hs hdue hd, if_pos hpos]
    rfl
  · have hd : daysUntil (localMidnight now offset) (parseDate due) = some 0 := by
      simp only [hparse, daysUntil, hdiff]
      congr 1
      unfold msPerDay at hlo hhi ⊢
      omega
    rw [getDueStatus_of_days parseDate _ due status 0 hs hdue hd, if_neg hpos]
    rfl

/-- C12: `getDueStatus` returns `none` for a task that is Done or has no due
text; otherwise, for a due text that parses and
`d = ceil ((due - today) / one day)`, the red badge "Overdue" when `d < 0`, the
amber badge "Due today" when `d = 0`, the amber badge "`d`d left" when
`1 ≤ d ≤ 3`, and `none` when `3 < d`. -/
theorem getDueStatus_cases (parseDate : String → Option Int) (today : Int)
    (due status : String) :
    ((status = "Done" ∨ due = "") → getDueStatus parseDate today due status = none) ∧
    (∀ (t d : Int), status ≠ "Done" → due ≠ "" → parseDate due = some t →
      d = ⌈((t - today : Int) : ℚ) / 86400000⌉ →
      (d < 0 → getDueStatus parseDate today due status =
        some ⟨"Overdue", "text-red-600", "bg-red-100", "AlertTriangle"⟩) ∧
      (d = 0 → getDueStatus parseDate today due status =
        some ⟨"Due today", "text-amber-600", "bg-amber-100", "Clock"⟩) ∧
      (1 ≤ d → d ≤ 3 → getDueStatus parseDate today due status =
        some ⟨toString d ++ "d left", "text-amber-600", "bg-amber-100", "Clock"⟩) ∧
      (3 < d → getDueStatus parseDate today due status = none)) := by
  constructor
  · intro h
    simp only [getDueStatus, if_pos h]
  · intro t d hs hdue hparse hd
    have h := getDueStatus_of_days parseDate today due status d hs hdue
      (by rw [hparse, daysUntil_some, hd])
    refine ⟨fun h0 => ?_, fun h0 => ?_, fun h1 h3 => ?_, fun h3 => ?_⟩
    · rw [h, if_pos h0]
    · rw [h, if_neg (by omega), if_pos h0]
    · rw [h, if_neg (by omega), if_neg (by omega), if_pos h3]
    · rw [h, if_neg (by omega), if_neg (by omega), if_neg (by omega)]

/-- Witness of `getDueStatus_cases`: a Done task, and a To Do task due on
2025-06-17 seen from midnight UTC of 2025-06-15, two days before. -/
theorem getDueStatus_cases_witness :
    getDueStatus parseDateOnly 1749945600000 "2025-06-17" "Done" = none ∧
    getDueStatus parseDateOnly 1749945600000 "2025-06-17" "To Do" =
      some ⟨"2d left", "text-amber-600", "bg-amber-100", "Clock"⟩ :=
  have hd : (2 : Int) = ⌈(((1750118400000 : Int) - 1749945600000 : Int) : ℚ) / 86400000⌉ := by
    symm
    rw [Int.ceil_eq_iff]
    norm_num
  ⟨(getDueStatus_cases parseDateOnly 1749945600000 "2025-06-17" "Done").1 (Or.inl rfl),
    ((getDueStatus_cases parseDateOnly 1749945600000 "2025-06-17" "To Do").2
      1750118400000 2 (by decide) (by decide) (by decide) hd).2.2.1 (by decide) (by decide)⟩

/-- C13, evaluated where the code leaves it: on 2025-06-15 at noon in a zone
one hour east of UTC, a To Do task due 2025-06-15 gets the badge "1d left":
the due text is read as midnight UTC, one hour after the local midnight that
`setHours(0, 0, 0, 0)` gives, and the ceiling of 1/24 is 1.  One hour west of
UTC the badge is "Due today". -/
theorem due_today_east_of_utc :
    localDay (1749945600000 + 11 * 3600000) 3600000 = 20254 ∧
      parseDateOnly "2025-06-15" = some (20254 * msPerDay) ∧
      localMidnight (1749945600000 + 11 * 3600000) 3600000 = 1749945600000 - 3600000 ∧
      getDueStatus parseDateOnly (localMidnight (1749945600000 + 11 * 3600000) 3600000)
        "2025-06-15" "To Do" = some ⟨"1d left", "text-amber-600", "bg-amber-100", "Clock"⟩ ∧
      getDueStatus parseDateOnly (localMidnight (1749945600000 + 13 * 3600000) (-3600000))
        "2025-06-15" "To Do" = some ⟨"Due today", "text-amber-600", "bg-amber-100", "Clock"⟩ := by
  decide

/-! ## Backlog statistics -/

/-- The list `tasksDone c n` has `n` entries. -/
theorem tasksDone_length (c n : Nat) (hc : c ≤ n) : (tasksDone c n).length = n := by
  simp only [tasksDone, List.length_append, List.length_replicate]
  omega

/-- The list `tasksDone c n` has `c` tasks that are Done. -/
theorem tasksDone_done (c n : Nat) :
    ((tasksDone c n).filter (fun t => t.status = "Done")).length = c := by
  have h1 : decide ((mkTask 1 "t" "Done").status = "Done") = true := by decide
  have h2 : decide ((mkTask 1 "t" "To Do").status = "Done") = false := by decide
  simp [tasksDone, List.filter_append, List.filter_replicate, h1, h2]

/-- The counts of `Backlog.stats` are the numbers of tasks of each kind, and the
completion rate is 0 for the empty list. -/
theorem Backlog.stats_counts (parseDate : String → Option Int) (now : Int)
    (tasks : List Task) :
    (Backlog.stats parseDate now tasks).total = tasks.length ∧
      (Backlog.stats parseDate now tasks).done = tasks.countP (fun t => t.status = "Done") ∧
      (Backlog.stats parseDate now tasks).inProgress =
        tasks.countP (fun t => t.status = "In Progress") ∧
      (Backlog.stats parseDate now tasks).todo = tasks.countP (fun t => t.status = "To Do") ∧
      (Backlog.stats parseDate now tasks).highPriority =
        tasks.countP (fun t => t.priority = "High" ∧ t.status ≠ "Done") ∧
      (tasks = [] → (Backlog.stats parseDate now tasks).completionRate = 0) := by
  simp only [Backlog.stats, List.countP_eq_length_filter, true_and]
  intro h
  simp [h]

/-- C14, evaluated where the code leaves it: of 40 tasks with 23 Done, the
counts are 40 and 23 and `completionRate` is 57, the double `(23 / 40) * 100`
lying just below 57.5, while `100 * 23 / 40` rounds to 58.  For the statuses
Done, Done, In Progress, To Do the rate is 50 with one task in progress and
one to do. -/
theorem stats_completionRate_23_of_40 (parseDate : String → Option Int) (now : Int) :
    (Backlog.stats parseDate now (tasksDone 23 40)).total = 40 ∧
      (Backlog.stats parseDate now (tasksDone 23 40)).done = 23 ∧
      (Backlog.stats parseDate now (tasksDone 23 40)).completionRate = 57 ∧
      ⌊(100 * 23 : ℚ) / 40 + 1 / 2⌋ = 58 ∧
      (Backlog.stats parseDate now
        [mkTask 1 "a" "Done", mkTask 2 "b" "Done", mkTask 3 "c" "In Progress",
          mkTask 4 "d" "To Do"]).completionRate = 50 ∧
      (Backlog.stats parseDate now
        [mkTask 1 "a" "Done", mkTask 2 "b" "Done", mkTask 3 "c" "In Progress",
          mkTask 4 "d" "To Do"]).inProgress = 1 ∧
      (Backlog.stats parseDate now
        [mkTask 1 "a" "Done", mkTask 2 "b" "Done", mkTask 3 "c" "In Progress",
          mkTask 4 "d" "To Do"]).todo = 1 := by
  have hlen : (tasksDone 23 40).length = 40 := tasksDone_length 23 40 (by decide)
  have hdone := tasksDone_done 23 40
  refine ⟨hlen, hdone, ?_, ?_, ?_, ?_, ?_⟩
  · simp only [Backlog.stats, hlen, hdone]
    decide
  · rw [Int.floor_eq_iff]
    norm_num
  · simp only [Backlog.stats]
    decide
  · simp only [Backlog.stats]
    decide
  · simp only [Backlog.stats]
    decide

/-- C15: with the current instant `now`, `stats.overdue` is the number of tasks
that are not Done and whose due text parses to an instant before `now`; a task
whose due text is empty or does not parse is not counted.  The empty text is
no date for the parser of the runtime. -/
theorem stats_overdue (parseDate : String → Option Int) (now : Int) (tasks : List Task)
    (hempty : parseDate "" = none) :
    ∃ counted : Task → Bool,
      (Backlog.stats parseDate now tasks).overdue = (tasks.filter counted).length ∧
      (∀ t, counted t = true ↔
        (t.status ≠ "Done" ∧ ∃ v, parseDate t.due = some v ∧ v < now)) ∧
      (∀ t, (t.due = "" ∨ parseDate t.due = none) → counted t = false) := by
  have hiff : ∀ t : Task,
      (if t.status = "Done" ∨ t.due = "" then false else jsLt (parseDate t.due) now) = true ↔
        (t.status ≠ "Done" ∧ ∃ v, parseDate t.due = some v ∧ v < now) := by
    intro t
    by_cases hs : t.status = "Done"
    · simp [hs]
    · by_cases hdue : t.due = ""
      · simp [hs, hdue, hempty]
      · cases hp : parseDate t.due with
        | none => simp [hs, hdue, jsLt]
        | some v => simp [hs, hdue, jsLt]
  refine ⟨fun t => if t.status = "Done" ∨ t.due = "" then false else jsLt (parseDate t.due) now,
    rfl, hiff, ?_⟩
  intro t ht
  cases hc : (if t.status = "Done" ∨ t.due = "" then false else jsLt (parseDate t.due) now) with
  | false => exact hc
  | true =>
    obtain ⟨_, v, hv, _⟩ := (hiff t).mp hc
    rcases ht with ht | ht
    · rw [ht, hempty] at hv
      cases hv
    · rw [ht] at hv
      cases hv

/-- Witness of `stats_overdue`: three tasks seen at noon UTC of 2025-06-15, one
due the day before, one with no due text, one Done and due long ago. -/
theorem stats_overdue_witness :
    parseDateOnly "" = none ∧
    ∃ counted : Task → Bool,
      (Backlog.stats parseDateOnly 1749988800000
        [{ taskA with due := "2025-06-14" }, taskB,
          { mkTask 5 "E" "Done" with due := "2020-01-01" }]).overdue =
        ([{ taskA with due := "2025-06-14" }, taskB,
          { mkTask 5 "E" "Done" with due := "2020-01-01" }].filter counted).length ∧
      (∀ t, counted t = true ↔
        (t.status ≠ "Done" ∧ ∃ v, parseDateOnly t.due = some v ∧ v < 1749988800000)) ∧
      (∀ t, (t.due = "" ∨ parseDateOnly t.due = none) → counted t = false) :=
  ⟨by decide, stats_overdue parseDateOnly 1749988800000 _ (by decide)⟩

/-! ## Note statistics -/

/-- When every note has one of the four types, the four counts add up to the
number of notes. -/
theorem note_type_counts_sum (notes : List Note)
    (h : ∀ n ∈ notes, n.type = "meeting" ∨ n.type = "decision" ∨ n.type = "action" ∨
      n.type = "general") :
    (notes.filter (fun n => n.type = "meeting")).length +
      (notes.filter (fun n => n.type = "decision")).length +
      (notes.filter (fun n => n.type = "action")).length +
      (notes.filter (fun n => n.type = "general")).length = notes.length := by
  induction notes with
  | nil => rfl
  | cons n rest ih =>
    have ih2 := ih (fun m hm => h m (List.mem_cons_of_mem n hm))
    rcases h n (List.mem_cons_self n rest) with hn | hn | hn | hn <;>
      simp [List.filter_cons, hn] <;> omega

/-- C17 as stated fails: for two general notes and three meeting notes the
stats are total 5, meetings 3, decisions 0, actions 0, thisWeek 0; the number
of general notes, 2, is none of the values reported. -/
theorem noteStats_without_general_count :
    Notes.stats parseDateOnly 1749988800000
        [mkNote 1 "general", mkNote 2 "general", mkNote 3 "meeting", mkNote 4 "meeting",
          mkNote 5 "meeting"] = ⟨5, 3, 0, 0, 0⟩ ∧
      ([mkNote 1 "general", mkNote 2 "general", mkNote 3 "meeting", mkNote 4 "meeting",
          mkNote 5 "meeting"].filter (fun n => n.type = "general")).length = 2 ∧
      (2 : Nat) ∉ [5, 3, 0, 0, 0] := by
  decide

/-- C17, amended: the note stats report the total number of notes and the
numbers of notes of the types meeting, decision and action; no value for the
type general is among them, and when every note has one of the four types the
number of general notes is the total less the three counts. -/
theorem noteStats_counts (parseDate : String → Option Int) (now : Int) (notes : List Note) :
    (Notes.stats parseDate now notes).total = notes.length ∧
      (Notes.stats parseDate now notes).meetings = notes.countP (fun n => n.type = "meeting") ∧
      (Notes.stats parseDate now notes).decisions =
        notes.countP (fun n => n.type = "decision") ∧
      (Notes.stats parseDate now notes).actions = notes.countP (fun n => n.type = "action") ∧
      ((∀ n ∈ notes, n.type = "meeting" ∨ n.type = "decision" ∨ n.type = "action" ∨
          n.type = "general") →
        notes.countP (fun n => n.type = "general") =
          (Notes.stats parseDate now notes).total - (Notes.stats parseDate now notes).meetings -
            (Notes.stats parseDate now notes).decisions -
            (Notes.stats parseDate now notes).actions) := by
  simp only [Notes.stats, List.countP_eq_length_filter, true_and]
  intro h
  have hsum := note_type_counts_sum notes h
  omega

/-- Witness of `noteStats_counts`: two general notes and three meeting notes. -/
theorem noteStats_counts_witness :
    (∀ n ∈ [mkNote 1 "general", mkNote 2 "general", mkNote 3 "meeting", mkNote 4 "meeting",
          mkNote 5 "meeting"],
        n.type = "meeting" ∨ n.type = "decision" ∨ n.type = "action" ∨ n.type = "general") ∧
      [mkNote 1 "general", mkNote 2 "general", mkNote 3 "meeting", mkNote 4 "meeting",
          mkNote 5 "meeting"].countP (fun n => n.type = "general") = 5 - 3 - 0 - 0 :=
  have hall : ∀ n ∈ [mkNote 1 "general", mkNote 2 "general", mkNote 3 "meeting",
      mkNote 4 "meeting", mkNote 5 "meeting"],
      n.type = "meeting" ∨ n.type = "decision" ∨ n.type = "action" ∨ n.type = "general" := by
    decide
  ⟨hall, (noteStats_counts parseDateOnly 1749988800000 _).2.2.2.2 hall⟩

/-! ## Toggling a key result -/

/-- The map over the key results in `toggleKRDone`. -/
theorem toggle_mapIdx_getElem? (krs : List KeyResult) (k i : Nat) :
    (krs.mapIdx (fun i kr => if i = k then { kr with done := !kr.done } else kr))[i]? =
      if i = k then (krs[i]?).map (fun kr => { kr with done := !kr.done }) else krs[i]? := by
  rw [List.getElem?_mapIdx]
  by_cases h : i = k
  · simp [h]
  · simp [h]

/-- At a valid index the map flips the flag of that key result. -/
theorem toggle_mapIdx_of_getElem? (krs : List KeyResult) (k : Nat) (kr : KeyResult)
    (h : krs[k]? = some kr) :
    krs.mapIdx (fun i kr => if i = k then { kr with done := !kr.done } else kr) =
      krs.set k { kr with done := !kr.done } := by
  apply List.ext_getElem?
  intro i
  rw [toggle_mapIdx_getElem?, List.getElem?_set]
  have hlt : k < krs.length := (List.getElem?_eq_some.mp h).1
  by_cases hik : i = k
  · subst hik
    simp [h, hlt]
  · have hki : ¬ k = i := fun hEq => hik hEq.symm
    simp [hik, hki]

/-- At an index out of range the map changes nothing. -/
theorem toggle_mapIdx_of_length_le (krs : List KeyResult) (k : Nat) (h : krs.length ≤ k) :
    krs.mapIdx (fun i kr => if i = k then { kr with done := !kr.done } else kr) = krs := by
  apply List.ext_getElem?
  intro i
  rw [toggle_mapIdx_getElem?]
  by_cases hik : i = k
  · subst hik
    simp [List.getElem?_eq_none h]
  · simp [hik]

/-- The map is its own inverse. -/
theorem toggle_mapIdx_twice (krs : List KeyResult) (k : Nat) :
    (krs.mapIdx (fun i kr => if i = k then { kr with done := !kr.done } else kr)).mapIdx
      (fun i kr => if i = k then { kr with done := !kr.done } else kr) = krs := by
  apply List.ext_getElem?
  intro i
  rw [toggle_mapIdx_getElem?, toggle_mapIdx_getElem?]
  by_cases hik : i = k
  · cases h : krs[i]? <;> simp [hik, h]
  · simp [hik]

/-- An objective whose key results are set to what they are is unchanged. -/
theorem objective_with_keyResults_self (obj : Objective) :
    { obj with keyResults := obj.keyResults } = obj := by
  cases obj
  rfl

/-- C18: when one objective only, at position `p`, has the id `objId` and `k`
is an index of its key results, `toggleKRDone` gives the list in which that
objective has that key result with `done` negated and all else is as before;
when no objective has the id, or `k` is no index of the key results of those
that have it, the list is unchanged. -/
theorem toggleKRDone_frame (objectives : List Objective) (objId k : Nat) :
    (∀ (p : Nat) (obj : Objective) (kr : KeyResult),
      objectives[p]? = some obj → obj.id = objId →
      (∀ (q : Nat) (other : Objective), objectives[q]? = some other → other.id = objId → q = p) →
      obj.keyResults[k]? = some kr →
      toggleKRDone objectives objId k =
        objectives.set p
          { obj with keyResults := obj.keyResults.set k { kr with done := !kr.done } }) ∧
    ((∀ obj ∈ objectives, obj.id ≠ objId) → toggleKRDone objectives objId k = objectives) ∧
    ((∀ obj ∈ objectives, obj.id = objId → obj.keyResults.length ≤ k) →
      toggleKRDone objectives objId k = objectives) := by
  refine ⟨?_, ?_, ?_⟩
  · intro p obj kr hp hid huniq hk
    apply List.ext_getElem?
    intro q
    have hlt : p < objectives.length := (List.getElem?_eq_some.mp hp).1
    rw [toggleKRDone, List.getElem?_map, List.getElem?_set]
    by_cases hqp : q = p
    · subst hqp
      simp [hp, hid, hlt, toggle_mapIdx_of_getElem? obj.keyResults k kr hk]
    · have hpq : ¬ p = q := fun hEq => hqp hEq.symm
      rw [if_neg hpq]
      cases hq : objectives[q]? with
      | none => rfl
      | some other =>
        have hne : ¬ other.id = objId := fun hEq => hqp (huniq q other hq hEq)
        simp [hne]
  · intro hnone
    rw [toggleKRDone]
    conv_rhs => rw [← List.map_id objectives]
    apply List.map_congr_left
    intro obj hobj
    simp [hnone obj hobj]
  · intro hrange
    rw [toggleKRDone]
    conv_rhs => rw [← List.map_id objectives]
    apply List.map_congr_left
    intro obj hobj
    by_cases hid : obj.id = objId
    · simp only [if_pos hid, toggle_mapIdx_of_length_le obj.keyResults k (hrange obj hobj hid),
        objective_with_keyResults_self, id_eq]
    · simp only [if_neg hid, id_eq]

/-- Witness of `toggleKRDone_frame`: two objectives with ids 1 and 2; the
second key result of the first is toggled, then an index out of range and an
id that no objective has are tried. -/
theorem toggleKRDone_frame_witness :
    toggleKRDone [objectiveOne, objectiveTwo] 1 1 =
        [objectiveOne, objectiveTwo].set 0
          { objectiveOne with keyResults := objectiveOne.keyResults.set 1 ⟨"b", false⟩ } ∧
      toggleKRDone [objectiveOne, objectiveTwo] 7 0 = [objectiveOne, objectiveTwo] ∧
      toggleKRDone [objectiveOne, objectiveTwo] 1 2 = [objectiveOne, objectiveTwo] :=
  ⟨(toggleKRDone_frame [objectiveOne, objectiveTwo] 1 1).1 0 objectiveOne ⟨"b", true⟩
      (by decide) (by decide)
      (by
        intro q other hq hid
        match q, hq with
        | 0, _ => rfl
        | 1, hq =>
          simp only [List.getElem?_cons_succ, List.getElem?_cons_zero, Option.some.injEq] at hq
          subst hq
          exact absurd hid (by decide)
        | q + 2, hq => simp at hq)
      (by decide),
    (toggleKRDone_frame [objectiveOne, objectiveTwo] 7 0).2.1 (by decide),
    (toggleKRDone_frame [objectiveOne, objectiveTwo] 1 2).2.2 (by decide)⟩

/-- C19: toggling the same key result twice gives the objective list back, for
every list, id and index. -/
theorem toggleKRDone_twice (objectives : List Objective) (objId k : Nat) :
    toggleKRDone (toggleKRDone objectives objId k) objId k = objectives := by
  simp only [toggleKRDone, List.map_map]
  conv_rhs => rw [← List.map_id objectives]
  apply List.map_congr_left
  intro obj _
  by_cases hid : obj.id = objId
  · simp only [Function.comp_apply, if_pos hid, toggle_mapIdx_twice,
      objective_with_keyResults_self, id_eq]
  · simp only [Function.comp_apply, if_neg hid, id_eq]

/-! ## Rejected drafts -/

/-- A text that is empty or holds white space only trims to the empty text. -/
theorem jsTrim_of_blank (s : String) (h : ∀ c ∈ s.toList, isJsWhitespace c = true) :
    jsTrim s = "" := by
  have hdrop : s.toList.dropWhile isJsWhitespace = [] := List.dropWhile_eq_nil_iff.mpr h
  simp only [jsTrim, hdrop, List.reverse_nil, List.dropWhile_nil]

/-- C20: a draft whose title is empty or white space only (for a note: whose
title or content is) is dropped by the add handler of tasks, objectives and
notes: the collection is returned as it was, `logActivity` is not called, and
the activity log stays as it was. -/
theorem create_rejects_blank (now : Nat) (log : List ActivityEntry) (timestamp : String) :
    (∀ (tasks : List Task) (newTask : Task) (editId : Option Nat),
      (∀ c ∈ newTask.title.toList, isJsWhitespace c = true) →
      handleAddOrEditTask now tasks newTask editId = ⟨tasks, []⟩ ∧
      recordAll log timestamp (handleAddOrEditTask now tasks newTask editId).logged = log) ∧
    (∀ (objectives : List Objective) (newTitle newDueDate : String)
      (newKeyResults : List KeyResult) (editId : Option Nat),
      (∀ c ∈ newTitle.toList, isJsWhitespace c = true) →
      handleAddOrEditObjective now objectives newTitle newDueDate newKeyResults editId =
        ⟨objectives, []⟩ ∧
      recordAll log timestamp
        (handleAddOrEditObjective now objectives newTitle newDueDate newKeyResults editId).logged
        = log) ∧
    (∀ (notes : List Note) (newNote : NoteDraft) (editId : Option Nat),
      ((∀ c ∈ newNote.title.toList, isJsWhitespace c = true) ∨
        (∀ c ∈ newNote.content.toList, isJsWhitespace c = true)) →
      handleAddOrEditNote now notes newNote editId = ⟨notes, []⟩ ∧
      recordAll log timestamp (handleAddOrEditNote now notes newNote editId).logged = log) := by
  refine ⟨?_, ?_, ?_⟩
  · intro tasks newTask editId h
    have hout : handleAddOrEditTask now tasks newTask editId = ⟨tasks, []⟩ := by
      simp only [handleAddOrEditTask, jsTrim_of_blank _ h, if_true]
    exact ⟨hout, by rw [hout]; rfl⟩
  · intro objectives newTitle newDueDate newKeyResults editId h
    have hout : handleAddOrEditObjective now objectives newTitle newDueDate newKeyResults editId
        = ⟨objectives, []⟩ := by
      simp only [handleAddOrEditObjective, jsTrim_of_blank _ h, if_true]
    exact ⟨hout, by rw [hout]; rfl⟩
  · intro notes newNote editId h
    have hguard : jsTrim newNote.title = "" ∨ jsTrim newNote.content = "" :=
      h.imp (jsTrim_of_blank _) (jsTrim_of_blank _)
    have hout : handleAddOrEditNote now notes newNote editId = ⟨notes, []⟩ := by
      simp only [handleAddOrEditNote, if_pos hguard]
    exact ⟨hout, by rw [hout]; rfl⟩

/-- Witness of `create_rejects_blank`: a task draft titled with two spaces, an
objective draft with an empty title, and a note draft whose content is a tab
and a line break. -/
theorem create_rejects_blank_witness :
    handleAddOrEditTask 1749988800000 [taskA] (mkTask 0 "  " "To Do") none = ⟨[taskA], []⟩ ∧
      handleAddOrEditObjective 1749988800000 [objectiveOne] "" "2025-06-30" [⟨"kr", false⟩] none
        = ⟨[objectiveOne], []⟩ ∧
      handleAddOrEditNote 1749988800000 [mkNote 1 "meeting"]
        ⟨"Weekly", "\t\n", "a, b", "", "meeting"⟩ none = ⟨[mkNote 1 "meeting"], []⟩ :=
  ⟨((create_rejects_blank 1749988800000 [] "").1 [taskA] (mkTask 0 "  " "To Do") none
      (by decide)).1,
    ((create_rejects_blank 1749988800000 [] "").2.1 [objectiveOne] "" "2025-06-30"
      [⟨"kr", false⟩] none (by decide)).1,
    ((create_rejects_blank 1749988800000 [] "").2.2 [mkNote 1 "meeting"]
      ⟨"Weekly", "\t\n", "a, b", "", "meeting"⟩ none (Or.inr (by decide))).1⟩

/-! ## Tag suggestions -/

/-- The loop of `setFrom` keeps a list without duplicates free of them. -/
theorem setFrom_loop_nodup (l acc : List String) (h : acc.Nodup) :
    (l.foldl (fun acc x => if x ∈ acc then acc else acc ++ [x]) acc).Nodup := by
  induction l generalizing acc with
  | nil => exact h
  | cons x l ih =>
    rw [List.foldl_cons]
    apply ih
    by_cases hx : x ∈ acc
    · rw [if_pos hx]
      exact h
    · rw [if_neg hx]
      exact List.nodup_append.mpr ⟨h, List.nodup_singleton x, by
        intro y hy hy2
        rw [List.mem_singleton] at hy2
        exact hx (hy2 ▸ hy)⟩

/-- The loop of `setFrom` ends with the values it began with and those it
met. -/
theorem mem_setFrom_loop (l acc : List String) (y : String) :
    y ∈ l.foldl (fun acc x => if x ∈ acc then acc else acc ++ [x]) acc ↔ y ∈ acc ∨ y ∈ l := by
  induction l generalizing acc with
  | nil => simp
  | cons x l ih =>
    rw [List.foldl_cons, ih]
    by_cases hx : x ∈ acc
    · rw [if_pos hx, List.mem_cons]
      constructor
      · rintro (h | h)
        · exact Or.inl h
        · exact Or.inr (Or.inr h)
      · rintro (h | h | h)
        · exact Or.inl h
        · exact Or.inl (h ▸ hx)
        · exact Or.inr h
    · rw [if_neg hx, List.mem_append, List.mem_singleton, List.mem_cons]
      tauto

/-- The loop of `setFrom` lists the values by their first place in the whole
input `pre ++ l`, of which `pre` has been read. -/
theorem setFrom_loop_order (l pre acc : List String)
    (hmem : ∀ y, y ∈ acc ↔ y ∈ pre)
    (hord : acc.Pairwise (fun x y => List.indexOf x (pre ++ l) < List.indexOf y (pre ++ l))) :
    (l.foldl (fun acc x => if x ∈ acc then acc else acc ++ [x]) acc).Pairwise
      (fun x y => List.indexOf x (pre ++ l) < List.indexOf y (pre ++ l)) := by
  induction l generalizing pre acc with
  | nil => exact hord
  | cons x l ih =>
    have hsplit : pre ++ x :: l = (pre ++ [x]) ++ l := by simp
    rw [List.foldl_cons, hsplit]
    by_cases hx : x ∈ acc
    · rw [if_pos hx]
      apply ih
      · intro y
        rw [List.mem_append, List.mem_singleton, hmem]
        constructor
        · exact Or.inl
        · rintro (h | h)
          · exact h
          · exact (hmem y).mp (h ▸ hx)
      · rw [← hsplit]
        exact hord
    · rw [if_neg hx]
      apply ih
      · intro y
        rw [List.mem_append, List.mem_append, List.mem_singleton, hmem]
      · rw [← hsplit]
        refine List.pairwise_append.mpr ⟨hord, List.pairwise_singleton _ _, ?_⟩
        intro a ha b hb
        rw [List.mem_singleton] at hb
        subst hb
        have hapre : a ∈ pre := (hmem a).mp ha
        have hbpre : b ∉ pre := fun h => hx ((hmem b).mpr h)
        rw [List.indexOf_append_of_mem hapre, List.indexOf_append_of_not_mem hbpre,
          List.indexOf_cons_self]
        exact Nat.lt_of_lt_of_le (List.indexOf_lt_length.mpr hapre) (Nat.le_add_right _ _)

/-- The values of `setFrom` are distinct. -/
theorem setFrom_nodup (l : List String) : (setFrom l).Nodup :=
  setFrom_loop_nodup l [] List.nodup_nil

/-- The values of `setFrom` are those of the list. -/
theorem mem_setFrom (l : List String) (y : String) : y ∈ setFrom l ↔ y ∈ l := by
  simp [setFrom, mem_setFrom_loop]

/-- The values of `setFrom` stand in the order of their first places. -/
theorem setFrom_order (l : List String) :
    (setFrom l).Pairwise (fun x y => List.indexOf x l < List.indexOf y l) := by
  have h := setFrom_loop_order l [] [] (fun y => Iff.rfl) List.Pairwise.nil
  simpa using h

/-- The `reduce` of `tagSuggestions` pushes one pair for each tag, in order. -/
theorem foldl_push_eq_map (f : String → TagCount) (l : List String) (acc : List TagCount) :
    l.foldl (fun acc tag => acc ++ [f tag]) acc = acc ++ l.map f := by
  induction l generalizing acc with
  | nil => simp
  | cons x l ih => rw [List.foldl_cons, ih]; simp

/-- Inserting an element that came before all others keeps the order by count,
ties by `B`. -/
theorem orderedInsert_stable (B : TagCount → TagCount → Prop) (a : TagCount)
    (l : List TagCount)
    (hl : l.Pairwise (fun x y => y.count < x.count ∨ (x.count = y.count ∧ B x y)))
    (ha : ∀ x ∈ l, B a x) :
    (l.orderedInsert countDescending a).Pairwise
      (fun x y => y.count < x.count ∨ (x.count = y.count ∧ B x y)) := by
  induction l with
  | nil => simp
  | cons b l ih =>
    obtain ⟨hb, hrest⟩ := List.pairwise_cons.mp hl
    simp only [List.orderedInsert]
    by_cases hab : countDescending a b
    · rw [if_pos hab]
      refine List.pairwise_cons.mpr ⟨?_, hl⟩
      intro x hx
      have hle : b.count ≤ a.count := hab
      rcases List.mem_cons.mp hx with hx | hx
      · subst hx
        rcases Nat.lt_or_eq_of_le hle with h | h
        · exact Or.inl h
        · exact Or.inr ⟨h.symm, ha x (List.mem_cons_self _ _)⟩
      · have hxa := ha x (List.mem_cons_of_mem _ hx)
        have hxb : x.count ≤ b.count := by
          rcases hb x hx with h | h
          · exact Nat.le_of_lt h
          · exact Nat.le_of_eq h.1.symm
        rcases Nat.lt_or_eq_of_le (Nat.le_trans hxb hle) with h | h
        · exact Or.inl h
        · exact Or.inr ⟨h.symm, hxa⟩
    · rw [if_neg hab]
      have hlt : a.count < b.count := Nat.lt_of_not_le hab
      refine List.pairwise_cons.mpr ⟨?_, ih hrest (fun x hx => ha x (List.mem_cons_of_mem _ hx))⟩
      intro x hx
      rcases (List.mem_orderedInsert countDescending).mp hx with hx | hx
      · rw [hx]
        exact Or.inl hlt
      · exact hb x hx

/-- The sort of `tagSuggestions` is stable: it orders by count, larger first,
and leaves pairs of equal count in the order `B` they had. -/
theorem insertionSort_stable (B : TagCount → TagCount → Prop) (l : List TagCount)
    (hl : l.Pairwise B) :
    (l.insertionSort countDescending).Pairwise
      (fun x y => y.count < x.count ∨ (x.count = y.count ∧ B x y)) := by
  induction l with
  | nil => simp
  | cons a l ih =>
    obtain ⟨ha, hrest⟩ := List.pairwise_cons.mp hl
    simp only [List.insertionSort]
    apply orderedInsert_stable B a _ (ih hrest)
    intro x hx
    exact ha x ((List.perm_insertionSort countDescending l).mem_iff.mp hx)

/-- The suggestions are the first six entries of a list of the distinct tags
that is ordered by count, larger first, and by first place among equals. -/
theorem tagSuggestions_eq_take (notes : List Note) :
    ∃ ranked : List String,
      tagSuggestions notes = ranked.take 6 ∧
      ranked.Perm (setFrom (notes.flatMap (fun note => note.tags))) ∧
      ranked.Pairwise (fun x y =>
        (notes.flatMap (fun note => note.tags)).count y <
            (notes.flatMap (fun note => note.tags)).count x ∨
          ((notes.flatMap (fun note => note.tags)).count x =
              (notes.flatMap (fun note => note.tags)).count y ∧
            List.indexOf x (notes.flatMap (fun note => note.tags)) <
              List.indexOf y (notes.flatMap (fun note => note.tags)))) := by
  have hcount : ∀ tag : String,
      ((notes.flatMap (fun note => note.tags)).filter (fun t => decide (t = tag))).length =
        (notes.flatMap (fun note => note.tags)).count tag := by
    intro tag
    rw [List.count, List.countP_eq_length_filter]
    congr 2
  have hperm := List.perm_insertionSort countDescending
    ((setFrom (notes.flatMap (fun note => note.tags))).map
      (fun tag => (⟨tag, (notes.flatMap (fun note => note.tags)).count tag⟩ : TagCount)))
  have hprop : ∀ a ∈ List.insertionSort countDescending
      ((setFrom (notes.flatMap (fun note => note.tags))).map
        (fun tag => (⟨tag, (notes.flatMap (fun note => note.tags)).count tag⟩ : TagCount))),
      a.count = (notes.flatMap (fun note => note.tags)).count a.tag := by
    intro a ha
    obtain ⟨t, _, rfl⟩ := List.mem_map.mp (hperm.mem_iff.mp ha)
    rfl
  have hB : ((setFrom (notes.flatMap (fun note => note.tags))).map
      (fun tag => (⟨tag, (notes.flatMap (fun note => note.tags)).count tag⟩ : TagCount))).Pairwise
      (fun a b => List.indexOf a.tag (notes.flatMap (fun note => note.tags)) <
        List.indexOf b.tag (notes.flatMap (fun note => note.tags))) :=
    List.pairwise_map.mpr (setFrom_order _)
  refine ⟨(List.insertionSort countDescending
      ((setFrom (notes.flatMap (fun note => note.tags))).map
        (fun tag => (⟨tag, (notes.flatMap (fun note => note.tags)).count tag⟩ : TagCount)))).map
      (fun t => t.tag), ?_, ?_, ?_⟩
  · simp only [tagSuggestions, foldl_push_eq_map, List.nil_append, hcount, List.map_take]
  · have h := hperm.map (fun t : TagCount => t.tag)
    simpa [List.map_map, Function.comp_def] using h
  · rw [List.pairwise_map]
    refine List.Pairwise.imp_of_mem ?_ (insertionSort_stable _ _ hB)
    intro a b ha hb hab
    rw [← hprop a ha, ← hprop b hb]
    exact hab

/-- C16: the tag suggestions have no duplicates, hold six tags or all the
distinct tags when there are fewer, all of them tags of the notes, stand in
the order of falling count with tags of equal count in the order they are
first met, and every tag left out ranks behind every tag given in that order,
so it does not occur more often. -/
theorem tagSuggestions_ranked (notes : List Note) :
    (tagSuggestions notes).Nodup ∧
    (tagSuggestions notes).length = min 6 (notes.flatMap (fun note => note.tags)).dedup.length ∧
    (∀ t ∈ tagSuggestions notes, t ∈ notes.flatMap (fun note => note.tags)) ∧
    (tagSuggestions notes).Pairwise (fun x y =>
      (notes.flatMap (fun note => note.tags)).count y <
          (notes.flatMap (fun note => note.tags)).count x ∨
        ((notes.flatMap (fun note => note.tags)).count x =
            (notes.flatMap (fun note => note.tags)).count y ∧
          List.indexOf x (notes.flatMap (fun note => note.tags)) <
            List.indexOf y (notes.flatMap (fun note => note.tags)))) ∧
    (∀ t ∈ tagSuggestions notes, ∀ u ∈ notes.flatMap (fun note => note.tags),
      u ∉ tagSuggestions notes →
      ((notes.flatMap (fun note => note.tags)).count u <
          (notes.flatMap (fun note => note.tags)).count t ∨
        ((notes.flatMap (fun note => note.tags)).count t =
            (notes.flatMap (fun note => note.tags)).count u ∧
          List.indexOf t (notes.flatMap (fun note => note.tags)) <
            List.indexOf u (notes.flatMap (fun note => note.tags)))) ∧
      (notes.flatMap (fun note => note.tags)).count u ≤
        (notes.flatMap (fun note => note.tags)).count t) := by
  obtain ⟨ranked, heq, hperm, hrank⟩ := tagSuggestions_eq_take notes
  have hnodup : ranked.Nodup := hperm.nodup_iff.mpr (setFrom_nodup _)
  have hmem : ∀ t, t ∈ ranked ↔ t ∈ notes.flatMap (fun note => note.tags) := by
    intro t
    rw [hperm.mem_iff, mem_setFrom]
  have hlen : ranked.length = (notes.flatMap (fun note => note.tags)).dedup.length := by
    apply List.Perm.length_eq
    rw [List.perm_ext_iff_of_nodup hnodup (List.nodup_dedup _)]
    intro t
    rw [hmem, List.mem_dedup]
  rw [heq]
  refine ⟨hnodup.sublist (List.take_sublist 6 ranked), ?_, ?_, ?_, ?_⟩
  · rw [List.length_take, hlen]
  · intro t ht
    exact (hmem t).mp (List.mem_of_mem_take ht)
  · exact hrank.sublist (List.take_sublist 6 ranked)
  · intro t ht u hu hnot
    have hu2 : u ∈ ranked.take 6 ++ ranked.drop 6 := by
      rw [List.take_append_drop]
      exact (hmem u).mpr hu
    have hdrop : u ∈ ranked.drop 6 := by
      rcases List.mem_append.mp hu2 with h | h
      · exact absurd h hnot
      · exact h
    have hsplit := hrank
    rw [← List.take_append_drop 6 ranked] at hsplit
    have h := (List.pairwise_append.mp hsplit).2.2 t ht u hdrop
    refine ⟨h, ?_⟩
    rcases h with h | h
    · exact Nat.le_of_lt h
    · exact Nat.le_of_eq h.1.symm

/-- Witness of `tagSuggestions_ranked`: three notes with the tags a, b; c, b, d;
d, e, f, g, h, a.  The tags a, b and d occur twice and come first, in the
order they are first met; c, e and f follow; g and h are left out. -/
theorem tagSuggestions_ranked_witness :
    tagSuggestions [taggedNote ["a", "b"], taggedNote ["c", "b", "d"],
        taggedNote ["d", "e", "f", "g", "h", "a"]] = ["a", "b", "d", "c", "e", "f"] ∧
      (tagSuggestions [taggedNote ["a", "b"], taggedNote ["c", "b", "d"],
        taggedNote ["d", "e", "f", "g", "h", "a"]]).Nodup ∧
      (tagSuggestions [taggedNote ["a", "b"], taggedNote ["c", "b", "d"],
        taggedNote ["d", "e", "f", "g", "h", "a"]]).length =
        min 6 ([taggedNote ["a", "b"], taggedNote ["c", "b", "d"],
          taggedNote ["d", "e", "f", "g", "h", "a"]].flatMap (fun note => note.tags)).dedup.length :=
  ⟨by decide,
    (tagSuggestions_ranked [taggedNote ["a", "b"], taggedNote ["c", "b", "d"],
      taggedNote ["d", "e", "f", "g", "h", "a"]]).1,
    (tagSuggestions_ranked [taggedNote ["a", "b"], taggedNote ["c", "b", "d"],
      taggedNote ["d", "e", "f", "g", "h", "a"]]).2.1⟩

/-! ## Creating a record -/

/-- The characters of a trimmed text: white space is dropped at the front,
then at the back. -/
theorem jsTrim_toList (s : String) :
    (jsTrim s).toList = List.rdropWhile isJsWhitespace (s.toList.dropWhile isJsWhitespace) :=
  rfl

/-- A text trims to the empty text only when it holds nothing but white
space. -/
theorem jsTrim_eq_empty_iff (s : String) :
    jsTrim s = "" ↔ ∀ c ∈ s.toList, isJsWhitespace c = true := by
  constructor
  · intro h
    have hnil : List.rdropWhile isJsWhitespace (s.toList.dropWhile isJsWhitespace) = [] := by
      rw [← jsTrim_toList, h]
      rfl
    rw [List.rdropWhile_eq_nil_iff] at hnil
    by_cases hd : s.toList.dropWhile isJsWhitespace = []
    · exact List.dropWhile_eq_nil_iff.mp hd
    · have hhead := List.head_dropWhile_not isJsWhitespace s.toList hd
      rw [hnil _ (List.head_mem hd)] at hhead
      cases hhead
  · exact jsTrim_of_blank s

/-- A text with a character that is no white space does not trim to the empty
text. -/
theorem jsTrim_ne_empty (s : String) (h : ∃ c ∈ s.toList, isJsWhitespace c = false) :
    jsTrim s ≠ "" := by
  intro hEq
  obtain ⟨c, hc, hws⟩ := h
  rw [(jsTrim_eq_empty_iff s).mp hEq c hc] at hws
  cases hws

/-- C21: with no record open for editing, a draft whose title (for a note:
title and content) holds a character that is no white space is added as one
record and the records there were stay as they were, in their order: a task
and an objective are added at the end of their collection, a note at the
front of the notes. -/
theorem create_adds_one (now : Nat) :
    (∀ (tasks : List Task) (newTask : Task),
      (∃ c ∈ newTask.title.toList, isJsWhitespace c = false) →
      (handleAddOrEditTask now tasks newTask none).items = tasks ++ [{ newTask with id := now }]) ∧
    (∀ (objectives : List Objective) (newTitle newDueDate : String)
      (newKeyResults : List KeyResult),
      (∃ c ∈ newTitle.toList, isJsWhitespace c = false) →
      ∃ newObj : Objective,
        (handleAddOrEditObjective now objectives newTitle newDueDate newKeyResults none).items =
          objectives ++ [newObj] ∧
        newObj.id = now ∧ newObj.title = newTitle) ∧
    (∀ (notes : List Note) (newNote : NoteDraft),
      (∃ c ∈ newNote.title.toList, isJsWhitespace c = false) →
      (∃ c ∈ newNote.content.toList, isJsWhitespace c = false) →
      ∃ note : Note,
        (handleAddOrEditNote now notes newNote none).items = note :: notes ∧
        note.id = now ∧ note.title = newNote.title ∧ note.content = newNote.content) := by
  refine ⟨?_, ?_, ?_⟩
  · intro tasks newTask h
    simp only [handleAddOrEditTask, if_neg (jsTrim_ne_empty _ h), editTarget]
  · intro objectives newTitle newDueDate newKeyResults h
    simp only [handleAddOrEditObjective, if_neg (jsTrim_ne_empty _ h), editTarget]
    exact ⟨_, rfl, rfl, rfl⟩
  · intro notes newNote ht hc
    have hguard : ¬ (jsTrim newNote.title = "" ∨ jsTrim newNote.content = "") :=
      fun h => h.elim (jsTrim_ne_empty _ ht) (jsTrim_ne_empty _ hc)
    simp only [handleAddOrEditNote, if_neg hguard, editTarget]
    exact ⟨_, rfl, rfl, rfl, rfl⟩

/-- Witness of `create_adds_one`: a task, an objective and a note are added to
collections of one record each. -/
theorem create_adds_one_witness :
    (handleAddOrEditTask 1749988800000 [taskA] (mkTask 0 "New" "To Do") none).items =
        [taskA] ++ [{ mkTask 0 "New" "To Do" with id := 1749988800000 }] ∧
      (∃ newObj : Objective,
        (handleAddOrEditObjective 1749988800000 [objectiveOne] "Launch" "" [⟨"kr", false⟩]
          none).items = [objectiveOne] ++ [newObj] ∧
        newObj.id = 1749988800000 ∧ newObj.title = "Launch") ∧
      (∃ note : Note,
        (handleAddOrEditNote 1749988800000 [mkNote 1 "meeting"]
          ⟨"Weekly", "Notes", "a, b", "", "meeting"⟩ none).items = note :: [mkNote 1 "meeting"] ∧
        note.id = 1749988800000 ∧ note.title = "Weekly" ∧ note.content = "Notes") :=
  ⟨(create_adds_one 1749988800000).1 [taskA] (mkTask 0 "New" "To Do") ⟨'N', by decide, by decide⟩,
    (create_adds_one 1749988800000).2.1 [objectiveOne] "Launch" "" [⟨"kr", false⟩]
      ⟨'L', by decide, by decide⟩,
    (create_adds_one 1749988800000).2.2 [mkNote 1 "meeting"]
      ⟨"Weekly", "Notes", "a, b", "", "meeting"⟩ ⟨'W', by decide, by decide⟩
      ⟨'N', by decide, by decide⟩⟩

/-! ## Editing an objective -/

/-- The key results the objective handler stores: those of the form with a
text that does not trim to nothing, each with `done` false. -/
theorem formatted_key_results_texts (newKeyResults : List KeyResult)
    (h : ∀ kr ∈ newKeyResults, ∃ c ∈ kr.text.toList, isJsWhitespace c = false) :
    (((newKeyResults.filter (fun kr => jsTrim kr.text ≠ "")).map
      (fun kr => ({ text := kr.text, done := false } : KeyResult))).map (fun kr => kr.text)) =
      newKeyResults.map (fun kr => kr.text) := by
  have hfilter : newKeyResults.filter (fun kr => jsTrim kr.text ≠ "") = newKeyResults := by
    rw [List.filter_eq_self]
    intro kr hkr
    simpa using jsTrim_ne_empty _ (h kr hkr)
  rw [hfilter, List.map_map]
  rfl

/-- C22 as stated fails: the objective with id 1, due "End of Quarter", is
opened in the form, the date is cleared and the title changed; its first key
result is open and its second done.  After saving, the due is still
"End of Quarter", not the empty due of the draft, and both key results are
open, not those of the draft. -/
theorem edit_objective_keeps_due_resets_done :
    (OKR.handleEditClick objectiveOne).newKeyResults = [⟨"a", false⟩, ⟨"b", true⟩] ∧
      (handleAddOrEditObjective 1749988800000 [objectiveOne] "Ship it" ""
        (OKR.handleEditClick objectiveOne).newKeyResults (some 1)).items =
        [⟨1, "Ship it", "You", "End of Quarter", [⟨"a", false⟩, ⟨"b", false⟩]⟩] ∧
      "End of Quarter" ≠ "" ∧
      ([⟨"a", false⟩, ⟨"b", false⟩] : List KeyResult) ≠ [⟨"a", false⟩, ⟨"b", true⟩] := by
  decide

/-- C22, amended: saving the form for the id `e`, not 0, with a title and key
result texts that hold a character that is no white space, keeps the number
and places of the objectives; every objective with another id is as it was;
every objective with the id `e` keeps its id and owner, takes the title of the
draft, takes the due of the draft unless that is empty (then it keeps its
due), and has key results with the texts of the draft, in order. -/
theorem edit_objective (now : Nat) (objectives : List Objective) (e : Nat)
    (newTitle newDueDate : String) (newKeyResults : List KeyResult)
    (he : e ≠ 0) (htitle : ∃ c ∈ newTitle.toList, isJsWhitespace c = false)
    (hkrs : ∀ kr ∈ newKeyResults, ∃ c ∈ kr.text.toList, isJsWhitespace c = false) :
    (handleAddOrEditObjective now objectives newTitle newDueDate newKeyResults
      (some e)).items.length = objectives.length ∧
    ∀ (k : Nat) (obj : Objective), objectives[k]? = some obj →
      (obj.id ≠ e →
        (handleAddOrEditObjective now objectives newTitle newDueDate newKeyResults
          (some e)).items[k]? = some obj) ∧
      (obj.id = e → ∃ edited : Objective,
        (handleAddOrEditObjective now objectives newTitle newDueDate newKeyResults
          (some e)).items[k]? = some edited ∧
        edited.id = e ∧ edited.owner = obj.owner ∧ edited.title = newTitle ∧
        edited.due = (if newDueDate = "" then obj.due else newDueDate) ∧
        edited.keyResults.map (fun kr => kr.text) = newKeyResults.map (fun kr => kr.text)) := by
  have htarget : editTarget (some e) = some e := by simp [editTarget, he]
  simp only [handleAddOrEditObjective, if_neg (jsTrim_ne_empty _ htitle), htarget,
    List.length_map, true_and]
  intro k obj hk
  rw [List.getElem?_map, hk]
  constructor
  · intro hne
    simp only [Option.map_some', if_neg hne]
  · intro hid
    simp only [Option.map_some', if_pos hid]
    exact ⟨_, rfl, hid, rfl, rfl, rfl, formatted_key_results_texts newKeyResults hkrs⟩

/-- Witness of `edit_objective`: the first of two objectives is saved with a
new title, a new due and one more key result. -/
theorem edit_objective_witness :
    (handleAddOrEditObjective 1749988800000 [objectiveOne, objectiveTwo] "Ship it" "2025-07-01"
        [⟨"a", false⟩, ⟨"b", true⟩, ⟨"c", false⟩] (some 1)).items.length = 2 ∧
      (handleAddOrEditObjective 1749988800000 [objectiveOne, objectiveTwo] "Ship it" "2025-07-01"
        [⟨"a", false⟩, ⟨"b", true⟩, ⟨"c", false⟩] (some 1)).items[1]? = some objectiveTwo ∧
      ∃ edited : Objective,
        (handleAddOrEditObjective 1749988800000 [objectiveOne, objectiveTwo] "Ship it"
          "2025-07-01" [⟨"a", false⟩, ⟨"b", true⟩, ⟨"c", false⟩] (some 1)).items[0]? =
          some edited ∧
        edited.id = 1 ∧ edited.owner = objectiveOne.owner ∧ edited.title = "Ship it" ∧
        edited.due = (if "2025-07-01" = "" then objectiveOne.due else "2025-07-01") ∧
        edited.keyResults.map (fun kr => kr.text) =
          [⟨"a", false⟩, ⟨"b", true⟩, ⟨"c", false⟩].map (fun kr : KeyResult => kr.text) :=
  have h := edit_objective 1749988800000 [objectiveOne, objectiveTwo] 1 "Ship it" "2025-07-01"
    [⟨"a", false⟩, ⟨"b", true⟩, ⟨"c", false⟩] (by decide) ⟨'S', by decide, by decide⟩
    (by decide)
  ⟨h.1, (h.2 1 objectiveTwo (by decide)).1 (by decide),
    (h.2 0 objectiveOne (by decide)).2 (by decide)⟩

/-! ## Deleting a record -/

/-- The first record with a given id, when some record has it. -/
theorem find?_id_of_exists {α : Type} (key : α → Nat) (l : List α) (id : Nat)
    (h : ∃ r ∈ l, key r = id) :
    ∃ deleted, l.find? (fun r => key r = id) = some deleted ∧ deleted ∈ l ∧ key deleted = id := by
  cases hfind : l.find? (fun r => key r = id) with
  | none =>
    obtain ⟨r, hr, hid⟩ := h
    have := List.find?_eq_none.mp hfind r hr
    simp [hid] at this
  | some deleted =>
    have hp := List.find?_some hfind
    exact ⟨deleted, rfl, List.mem_of_find?_eq_some hfind, by simpa using hp⟩

/-- No record has a given id: nothing is found and nothing is filtered out. -/
theorem find?_filter_of_absent {α : Type} (key : α → Nat) (l : List α) (id : Nat)
    (h : ∀ r ∈ l, key r ≠ id) :
    l.find? (fun r => key r = id) = none ∧ l.filter (fun r => key r ≠ id) = l := by
  constructor
  · rw [List.find?_eq_none]
    intro r hr
    simpa using h r hr
  · rw [List.filter_eq_self]
    intro r hr
    simpa using h r hr

/-- C24: without confirmation a delete handler leaves its collection and the
log as they were.  With confirmation, when a record has the id, the handler
returns the collection without the records of that id, the others in their
order, and logs one entry, "Deleted task: ", "Deleted objective: " or
"Deleted note: " followed by the title of the first record of that id.  The
stored state changes in the collection of the handler and the log only: after
an objective is deleted the tasks are as they were, `okrId` included. -/
theorem delete_gated (id : Nat) (log : List ActivityEntry) (timestamp : String) :
    (∀ (tasks : List Task),
      handleDeleteTask false tasks id = ⟨tasks, []⟩ ∧
      ((∃ r ∈ tasks, r.id = id) → ∃ deleted ∈ tasks, deleted.id = id ∧
        handleDeleteTask true tasks id =
          ⟨tasks.filter (fun r => r.id ≠ id), ["Deleted task: " ++ deleted.title]⟩ ∧
        recordAll log timestamp (handleDeleteTask true tasks id).logged =
          ⟨"Deleted task: " ++ deleted.title, timestamp⟩ :: log)) ∧
    (∀ (objectives : List Objective),
      handleDeleteObjective false objectives id = ⟨objectives, []⟩ ∧
      ((∃ r ∈ objectives, r.id = id) → ∃ deleted ∈ objectives, deleted.id = id ∧
        handleDeleteObjective true objectives id =
          ⟨objectives.filter (fun r => r.id ≠ id), ["Deleted objective: " ++ deleted.title]⟩ ∧
        recordAll log timestamp (handleDeleteObjective true objectives id).logged =
          ⟨"Deleted objective: " ++ deleted.title, timestamp⟩ :: log)) ∧
    (∀ (notes : List Note),
      handleDelete false notes id = ⟨notes, []⟩ ∧
      ((∃ r ∈ notes, r.id = id) → ∃ deleted ∈ notes, deleted.id = id ∧
        handleDelete true notes id =
          ⟨notes.filter (fun r => r.id ≠ id), ["Deleted note: " ++ deleted.title]⟩ ∧
        recordAll log timestamp (handleDelete true notes id).logged =
          ⟨"Deleted note: " ++ deleted.title, timestamp⟩ :: log)) ∧
    (∀ (w : Workspace) (confirmed : Bool),
      (w.deleteTask false id timestamp = w ∧ w.deleteObjective false id timestamp = w ∧
        w.deleteNote false id timestamp = w) ∧
      ((w.deleteTask confirmed id timestamp).objectives = w.objectives ∧
        (w.deleteTask confirmed id timestamp).notes = w.notes) ∧
      ((w.deleteObjective confirmed id timestamp).tasks = w.tasks ∧
        (w.deleteObjective confirmed id timestamp).notes = w.notes) ∧
      ((w.deleteNote confirmed id timestamp).tasks = w.tasks ∧
        (w.deleteNote confirmed id timestamp).objectives = w.objectives)) := by
  refine ⟨?_, ?_, ?_, ?_⟩
  · intro tasks
    refine ⟨rfl, fun h => ?_⟩
    obtain ⟨deleted, hfind, hmem, hid⟩ := find?_id_of_exists (fun r : Task => r.id) tasks id h
    have hout : handleDeleteTask true tasks id =
        ⟨tasks.filter (fun r => r.id ≠ id), ["Deleted task: " ++ deleted.title]⟩ := by
      simp only [handleDeleteTask, hfind, if_true]
    exact ⟨deleted, hmem, hid, hout, by rw [hout]; rfl⟩
  · intro objectives
    refine ⟨rfl, fun h => ?_⟩
    obtain ⟨deleted, hfind, hmem, hid⟩ :=
      find?_id_of_exists (fun r : Objective => r.id) objectives id h
    have hout : handleDeleteObjective true objectives id =
        ⟨objectives.filter (fun r => r.id ≠ id), ["Deleted objective: " ++ deleted.title]⟩ := by
      simp only [handleDeleteObjective, hfind, if_true]
    exact ⟨deleted, hmem, hid, hout, by rw [hout]; rfl⟩
  · intro notes
    refine ⟨rfl, fun h => ?_⟩
    obtain ⟨deleted, hfind, hmem, hid⟩ := find?_id_of_exists (fun r : Note => r.id) notes id h
    have hout : handleDelete true notes id =
        ⟨notes.filter (fun r => r.id ≠ id), ["Deleted note: " ++ deleted.title]⟩ := by
      simp only [handleDelete, hfind, if_true]
    exact ⟨deleted, hmem, hid, hout, by rw [hout]; rfl⟩
  · intro w confirmed
    exact ⟨⟨rfl, rfl, rfl⟩, ⟨rfl, rfl⟩, ⟨rfl, rfl⟩, ⟨rfl, rfl⟩⟩

/-- Witness of `delete_gated`: the objective with id 1 is deleted from a stored
state whose task A is linked to it; the task keeps its `okrId`. -/
theorem delete_gated_witness :
    (∃ r ∈ [objectiveOne, objectiveTwo], r.id = 1) ∧
      handleDeleteObjective false [objectiveOne, objectiveTwo] 1 =
        ⟨[objectiveOne, objectiveTwo], []⟩ ∧
      (∃ deleted ∈ [objectiveOne, objectiveTwo], deleted.id = 1 ∧
        handleDeleteObjective true [objectiveOne, objectiveTwo] 1 =
          ⟨[objectiveOne, objectiveTwo].filter (fun r => r.id ≠ 1),
            ["Deleted objective: " ++ deleted.title]⟩ ∧
        recordAll [] "2025-06-15T11:00:00.000Z"
          (handleDeleteObjective true [objectiveOne, objectiveTwo] 1).logged =
          ⟨"Deleted objective: " ++ deleted.title, "2025-06-15T11:00:00.000Z"⟩ :: []) ∧
      (workspaceOne.deleteObjective true 1 "2025-06-15T11:00:00.000Z").tasks = [taskLinked] ∧
      (workspaceOne.deleteObjective true 1 "2025-06-15T11:00:00.000Z").objectives =
        [objectiveTwo] :=
  have hex : ∃ r ∈ [objectiveOne, objectiveTwo], r.id = 1 :=
    ⟨objectiveOne, List.mem_cons_self _ _, rfl⟩
  ⟨hex,
    ((delete_gated 1 [] "2025-06-15T11:00:00.000Z").2.1 [objectiveOne, objectiveTwo]).1,
    ((delete_gated 1 [] "2025-06-15T11:00:00.000Z").2.1 [objectiveOne, objectiveTwo]).2 hex,
    ((delete_gated 1 [] "2025-06-15T11:00:00.000Z").2.2.2 workspaceOne true).2.2.1.1,
    by decide⟩

/-- C25: for an id that no record of the collection has, each delete handler,
confirmed or not, returns the collection as it was and does not call
`logActivity`, so the log stays as it was. -/
theorem delete_absent (id : Nat) (confirmed : Bool) (log : List ActivityEntry)
    (timestamp : String) :
    (∀ (tasks : List Task), (∀ r ∈ tasks, r.id ≠ id) →
      handleDeleteTask confirmed tasks id = ⟨tasks, []⟩ ∧
      recordAll log timestamp (handleDeleteTask confirmed tasks id).logged = log) ∧
    (∀ (objectives : List Objective), (∀ r ∈ objectives, r.id ≠ id) →
      handleDeleteObjective confirmed objectives id = ⟨objectives, []⟩ ∧
      recordAll log timestamp (handleDeleteObjective confirmed objectives id).logged = log) ∧
    (∀ (notes : List Note), (∀ r ∈ notes, r.id ≠ id) →
      handleDelete confirmed notes id = ⟨notes, []⟩ ∧
      recordAll log timestamp (handleDelete confirmed notes id).logged = log) := by
  refine ⟨?_, ?_, ?_⟩
  · intro tasks h
    obtain ⟨hfind, hfilter⟩ := find?_filter_of_absent (fun r : Task => r.id) tasks id h
    have hout : handleDeleteTask confirmed tasks id = ⟨tasks, []⟩ := by
      cases confirmed
      · rfl
      · simp only [handleDeleteTask, hfind, hfilter, if_true]
    exact ⟨hout, by rw [hout]; rfl⟩
  · intro objectives h
    obtain ⟨hfind, hfilter⟩ :=
      find?_filter_of_absent (fun r : Objective => r.id) objectives id h
    have hout : handleDeleteObjective confirmed objectives id = ⟨objectives, []⟩ := by
      cases confirmed
      · rfl
      · simp only [handleDeleteObjective, hfind, hfilter, if_true]
    exact ⟨hout, by rw [hout]; rfl⟩
  · intro notes h
    obtain ⟨hfind, hfilter⟩ := find?_filter_of_absent (fun r : Note => r.id) notes id h
    have hout : handleDelete confirmed notes id = ⟨notes, []⟩ := by
      cases confirmed
      · rfl
      · simp only [handleDelete, hfind, hfilter, if_true]
    exact ⟨hout, by rw [hout]; rfl⟩

/-- Witness of `delete_absent`: the id 7, which no task, objective or note of
the lists has, with confirmation given. -/
theorem delete_absent_witness :
    handleDeleteTask true [taskA, taskB] 7 = ⟨[taskA, taskB], []⟩ ∧
      handleDeleteObjective true [objectiveOne, objectiveTwo] 7 =
        ⟨[objectiveOne, objectiveTwo], []⟩ ∧
      handleDelete true [mkNote 1 "meeting"] 7 = ⟨[mkNote 1 "meeting"], []⟩ :=
  ⟨((delete_absent 7 true [] "").1 [taskA, taskB] (by decide)).1,
    ((delete_absent 7 true [] "").2.1 [objectiveOne, objectiveTwo] (by decide)).1,
    ((delete_absent 7 true [] "").2.2 [mkNote 1 "meeting"] (by decide)).1⟩

/-! ## Linked objective of a task -/

/-- C26: `getOkrById` returns the first objective of the list whose id is the
one asked for, and `none` exactly when no objective has that id.  For a task
whose `okrId` is the id of an objective that has been deleted, the guard of the
card finds `none` and no link is rendered. -/
theorem getOkrById_first (okrs : List Objective) (okrId : Nat) :
    (∀ okr, getOkrById okrs okrId = some okr →
      okr.id = okrId ∧ ∃ before after, okrs = before ++ okr :: after ∧
        ∀ o ∈ before, o.id ≠ okrId) ∧
    ((∃ o ∈ okrs, o.id = okrId) → ∃ okr, getOkrById okrs okrId = some okr) ∧
    (getOkrById okrs okrId = none ↔ ∀ o ∈ okrs, o.id ≠ okrId) ∧
    (∀ task : Task, task.okrId = some okrId →
      linkedOkr (handleDeleteObjective true okrs okrId).items task = none) := by
  refine ⟨?_, ?_, ?_, ?_⟩
  · intro okr h
    obtain ⟨hp, before, after, hsplit, hbefore⟩ := List.find?_eq_some.mp h
    refine ⟨by simpa using hp, before, after, hsplit, ?_⟩
    intro o ho
    simpa using hbefore o ho
  · intro h
    obtain ⟨deleted, hfind, _, _⟩ := find?_id_of_exists (fun r : Objective => r.id) okrs okrId h
    exact ⟨deleted, hfind⟩
  · rw [getOkrById, List.find?_eq_none]
    simp
  · intro task htask
    simp only [linkedOkr, htask]
    by_cases h0 : okrId = 0
    · rw [if_pos h0]
    · rw [if_neg h0, getOkrById, List.find?_eq_none]
      intro o ho
      have hmem : o ∈ okrs.filter (fun obj => obj.id ≠ okrId) := ho
      simpa using (List.mem_filter.mp hmem).2

/-- Witness of `getOkrById_first`: the objective with id 2 is found behind the
one with id 1; after the objective with id 1 is deleted, the task linked to it
shows no link. -/
theorem getOkrById_first_witness :
    getOkrById [objectiveOne, objectiveTwo] 2 = some objectiveTwo ∧
      (∃ okr, getOkrById [objectiveOne, objectiveTwo] 2 = some okr) ∧
      linkedOkr [objectiveOne, objectiveTwo] taskLinked = some objectiveOne ∧
      linkedOkr (handleDeleteObjective true [objectiveOne, objectiveTwo] 1).items taskLinked =
        none :=
  ⟨by decide,
    (getOkrById_first [objectiveOne, objectiveTwo] 2).2.1
      ⟨objectiveTwo, List.mem_cons_of_mem _ (List.mem_cons_self _ _), rfl⟩,
    by decide,
    (getOkrById_first [objectiveOne, objectiveTwo] 1).2.2.2 taskLinked rfl⟩

/-! ## Loading the tasks -/

/-- C28 as stated fails: a stored task whose effort is the empty text and whose
`okrId` is 0 is loaded with effort "M" and `okrId` null, although both fields
are present. -/
theorem loadTasks_replaces_falsy :
    loadTasks (some [⟨9, "x", some "d", "High", "To Do", "", some "", some ["Bug"], some 0⟩]) =
        [⟨9, "x", "d", "High", "To Do", "", "M", ["Bug"], none⟩] ∧
      "M" ≠ "" ∧ (none : Option Nat) ≠ some 0 := by
  decide

/-- C28, amended: loading keeps the number and order of the stored tasks and
the fields id, title, priority, status and due; a missing description becomes
"", a missing effort "M", missing tags the empty list, a missing `okrId` null;
a present description and present tags keep their value, a present effort
keeps its value unless it is the empty text (then it becomes "M"), a present
`okrId` keeps its value unless it is 0 (then it becomes null). -/
theorem loadTasks_defaults (stored : List StoredTask) :
    (loadTasks (some stored)).length = stored.length ∧
    ∀ (k : Nat) (s : StoredTask), stored[k]? = some s →
      ∃ t : Task, (loadTasks (some stored))[k]? = some t ∧
        t.id = s.id ∧ t.title = s.title ∧ t.priority = s.priority ∧ t.status = s.status ∧
        t.due = s.due ∧
        (s.description = none → t.description = "") ∧
        (∀ d, s.description = some d → t.description = d) ∧
        (s.effort = none → t.effort = "M") ∧
        (∀ e, s.effort = some e → t.effort = if e = "" then "M" else e) ∧
        (s.tags = none → t.tags = []) ∧
        (∀ ts, s.tags = some ts → t.tags = ts) ∧
        (s.okrId = none → t.okrId = none) ∧
        (∀ i, s.okrId = some i → t.okrId = if i = 0 then none else some i) := by
  refine ⟨by simp [loadTasks], ?_⟩
  intro k s hk
  refine ⟨migrateTask s, by simp [loadTasks, hk], rfl, rfl, rfl, rfl, rfl, ?_, ?_, ?_, ?_, ?_,
    ?_, ?_, ?_⟩
  · intro h
    simp [migrateTask, h, jsOrString]
  · intro d h
    by_cases hd : d = "" <;> simp [migrateTask, h, jsOrString, hd]
  · intro h
    simp [migrateTask, h, jsOrString]
  · intro e h
    simp [migrateTask, h, jsOrString]
  · intro h
    simp [migrateTask, h]
  · intro ts h
    simp [migrateTask, h]
  · intro h
    simp [migrateTask, h, editTarget]
  · intro i h
    simp [migrateTask, h, editTarget]

/-- Witness of `loadTasks_defaults`: a stored task of the first version, with
none of the four later fields, is loaded with the defaults. -/
theorem loadTasks_defaults_witness :
    ∃ t : Task,
      (loadTasks (some [⟨9, "x", none, "High", "To Do", "2025-01-05", none, none, none⟩]))[0]? =
        some t ∧
      t.description = "" ∧ t.effort = "M" ∧ t.tags = [] ∧ t.okrId = none :=
  have h := (loadTasks_defaults
    [⟨9, "x", none, "High", "To Do", "2025-01-05", none, none, none⟩]).2 0
    ⟨9, "x", none, "High", "To Do", "2025-01-05", none, none, none⟩ rfl
  h.elim fun t ht =>
    ⟨t, ht.1, ht.2.2.2.2.2.2.1 rfl, ht.2.2.2.2.2.2.2.2.1 rfl, ht.2.2.2.2.2.2.2.2.2.2.1 rfl,
      ht.2.2.2.2.2.2.2.2.2.2.2.2.1 rfl⟩

/-! ## Reordering keeps the tasks -/

/-- Putting back the entry taken out of a list gives a rearrangement of the
list. -/
theorem splice_eraseIdx_perm {α : Type} (l : List α) (i j : Nat) (x : α)
    (h : l[i]? = some x) : (splice (l.eraseIdx i) j x).Perm l := by
  obtain ⟨hi, hx⟩ := List.getElem?_eq_some.mp h
  have h1 : (splice (l.eraseIdx i) j x).Perm (x :: l.eraseIdx i) := by
    have := @List.perm_middle _ x ((l.eraseIdx i).take j) ((l.eraseIdx i).drop j)
    rwa [List.take_append_drop] at this
  have h2 : (x :: l.eraseIdx i).Perm l := by
    rw [List.eraseIdx_eq_take_drop_succ]
    have h3 : l = l.take i ++ x :: l.drop (i + 1) := by
      rw [← hx, ← List.drop_eq_getElem_cons hi, List.take_append_drop]
    exact (List.perm_middle.symm).trans (h3 ▸ List.Perm.refl _)
  exact h1.trans h2

/-- C29: a drop in the column the drag began in, from a valid index and at any
destination index, stores a rearrangement of the task list: the same records,
each as often as before, with all their fields, and as many as before. -/
theorem onDragEnd_same_column_perm (tasks : List Task) (c : String) (i j : Nat)
    (hi : i < (columnTasks tasks c).length) :
    ∃ out, onDragEnd tasks ⟨⟨c, i⟩, some ⟨c, j⟩⟩ = some out ∧
      out.tasks.Perm tasks ∧ out.tasks.length = tasks.length ∧ out.logged = [] := by
  have hmoved : (columnTasks tasks c)[i]? = some ((columnTasks tasks c)[i]) :=
    List.getElem?_eq_getElem hi
  have hperm : (tasks.filter (fun t => t.status ≠ c) ++
      splice ((columnTasks tasks c).eraseIdx i) j ((columnTasks tasks c)[i])).Perm tasks := by
    have h1 := (List.Perm.refl (tasks.filter (fun t => t.status ≠ c))).append
      (splice_eraseIdx_perm (columnTasks tasks c) i j _ hmoved)
    have h2 : (tasks.filter (fun t => t.status ≠ c) ++ columnTasks tasks c).Perm tasks := by
      have h3 := List.filter_append_perm (fun t : Task => decide (t.status = c)) tasks
      have h4 : tasks.filter (fun t => !decide (t.status = c)) =
          tasks.filter (fun t => t.status ≠ c) := by
        apply List.filter_congr
        intro t _
        simp
      rw [h4] at h3
      exact List.perm_append_comm.trans h3
    exact h1.trans h2
  exact ⟨_, onDragEnd_same_column_eq tasks c i j _ hmoved, hperm, hperm.length_eq, rfl⟩

/-- Witness of `onDragEnd_same_column_perm`: A, D, B, C with D in In Progress; the
first card of To Do is dropped far behind the end of the column. -/
theorem onDragEnd_same_column_perm_witness :
    0 < (columnTasks [taskA, taskD, taskB, taskC] "To Do").length ∧
    ∃ out, onDragEnd [taskA, taskD, taskB, taskC] ⟨⟨"To Do", 0⟩, some ⟨"To Do", 9⟩⟩ = some out ∧
      out.tasks.Perm [taskA, taskD, taskB, taskC] ∧
      out.tasks.length = [taskA, taskD, taskB, taskC].length ∧ out.logged = [] :=
  ⟨by decide, onDragEnd_same_column_perm [taskA, taskD, taskB, taskC] "To Do" 0 9 (by decide)⟩

/-! ## Dashboard and backlog -/

/-- With every status one of the three columns, the three counts add up to the
number of tasks. -/
theorem status_counts_sum (tasks : List Task)
    (h : ∀ t ∈ tasks, t.status = "To Do" ∨ t.status = "In Progress" ∨ t.status = "Done") :
    (tasks.filter (fun t => t.status = "Done")).length +
      (tasks.filter (fun t => t.status = "In Progress")).length +
      (tasks.filter (fun t => t.status = "To Do")).length = tasks.length := by
  induction tasks with
  | nil => rfl
  | cons t rest ih =>
    have ih2 := ih (fun m hm => h m (List.mem_cons_of_mem t hm))
    rcases h t (List.mem_cons_self t rest) with ht | ht | ht <;>
      simp [List.filter_cons, ht] <;> omega

/-- C30: for a task list in which every status is To Do, In Progress or Done,
the metrics of the dashboard and the stats of the backlog hold the same
numbers of completed, in-progress and to-do tasks, the same total and the same
completion rate, and the three counts add up to the total. -/
theorem dashboard_agrees_with_backlog (parseDate : String → Option Int) (now : Int)
    (tasks : List Task) (okrs : List Objective) (notes : List Note)
    (h : ∀ t ∈ tasks, t.status = "To Do" ∨ t.status = "In Progress" ∨ t.status = "Done") :
    (Dashboard.metrics tasks okrs notes).completedTasks =
        (Backlog.stats parseDate now tasks).done ∧
      (Dashboard.metrics tasks okrs notes).inProgressTasks =
        (Backlog.stats parseDate now tasks).inProgress ∧
      (Dashboard.metrics tasks okrs notes).todoTasks = (Backlog.stats parseDate now tasks).todo ∧
      (Dashboard.metrics tasks okrs notes).totalTasks =
        (Backlog.stats parseDate now tasks).total ∧
      (Dashboard.metrics tasks okrs notes).taskCompletionRate =
        (Backlog.stats parseDate now tasks).completionRate ∧
      (Backlog.stats parseDate now tasks).done + (Backlog.stats parseDate now tasks).inProgress +
        (Backlog.stats parseDate now tasks).todo = (Backlog.stats parseDate now tasks).total := by
  have hdone : tasks.filter (fun t => t.status = "done" ∨ t.status = "Done") =
      tasks.filter (fun t => t.status = "Done") := by
    apply List.filter_congr
    intro t ht
    rcases h t ht with hs | hs | hs <;> simp [hs]
  have hprog : tasks.filter (fun t => t.status = "in-progress" ∨ t.status = "In Progress") =
      tasks.filter (fun t => t.status = "In Progress") := by
    apply List.filter_congr
    intro t ht
    rcases h t ht with hs | hs | hs <;> simp [hs]
  have htodo : tasks.filter (fun t => t.status = "todo" ∨ t.status = "To Do" ∨ t.status = "") =
      tasks.filter (fun t => t.status = "To Do") := by
    apply List.filter_congr
    intro t ht
    rcases h t ht with hs | hs | hs <;> simp [hs]
  simp only [Dashboard.metrics, Backlog.stats, hdone, hprog, htodo, true_and]
  exact status_counts_sum tasks h

/-- Witness of `dashboard_agrees_with_backlog`: the tasks A, B, C in To Do and D
in In Progress, seen at noon UTC of 2025-06-15. -/
theorem dashboard_agrees_with_backlog_witness :
    (∀ t ∈ [taskA, taskB, taskC, taskD],
        t.status = "To Do" ∨ t.status = "In Progress" ∨ t.status = "Done") ∧
      (Dashboard.metrics [taskA, taskB, taskC, taskD] [] []).todoTasks =
        (Backlog.stats parseDateOnly 1749988800000 [taskA, taskB, taskC, taskD]).todo ∧
      (Dashboard.metrics [taskA, taskB, taskC, taskD] [] []).taskCompletionRate =
        (Backlog.stats parseDateOnly 1749988800000 [taskA, taskB, taskC, taskD]).completionRate :=
  have hall : ∀ t ∈ [taskA, taskB, taskC, taskD],
      t.status = "To Do" ∨ t.status = "In Progress" ∨ t.status = "Done" := by decide
  have h := dashboard_agrees_with_backlog parseDateOnly 1749988800000
    [taskA, taskB, taskC, taskD] [] [] hall
  ⟨hall, h.2.2.1, h.2.2.2.2.1⟩

/-! ## Tags of a note -/

/-- Joining two or more pieces: the first, the separator, and the rest
joined. -/
theorem intercalate_cons_cons (sep x y : List Char) (r : List (List Char)) :
    List.intercalate sep (x :: y :: r) = x ++ sep ++ List.intercalate sep (y :: r) := by
  simp [List.intercalate, List.intersperse]

/-- Joining one piece gives the piece. -/
theorem intercalate_singleton (sep x : List Char) : List.intercalate sep [x] = x := by
  simp [List.intercalate, List.intersperse]

/-- A split has at least one piece. -/
theorem splitOnComma_ne_nil (cs : List Char) : splitOnComma cs ≠ [] := by
  cases cs with
  | nil => simp [splitOnComma]
  | cons c cs =>
    simp only [splitOnComma]
    split_ifs
    · simp
    · split <;> simp

/-- The pieces of a split, joined with commas, are the text. -/
theorem intercalate_splitOnComma (cs : List Char) :
    List.intercalate [','] (splitOnComma cs) = cs := by
  induction cs with
  | nil => rfl
  | cons c cs ih =>
    simp only [splitOnComma]
    cases hsplit : splitOnComma cs with
    | nil => exact absurd hsplit (splitOnComma_ne_nil cs)
    | cons piece pieces =>
      rw [hsplit] at ih
      by_cases hc : c = ','
      · rw [if_pos hc, intercalate_cons_cons, ih, hc]
        rfl
      · rw [if_neg hc]
        cases pieces with
        | nil =>
          rw [intercalate_singleton] at ih
          simp only [intercalate_singleton, ih]
        | cons q qs =>
          rw [intercalate_cons_cons] at ih
          simp only [intercalate_cons_cons, List.cons_append, ih]

/-- No piece of a split holds a comma. -/
theorem not_comma_of_mem_splitOnComma (cs piece : List Char) (h : piece ∈ splitOnComma cs) :
    ',' ∉ piece := by
  induction cs generalizing piece with
  | nil =>
    simp only [splitOnComma, List.mem_singleton] at h
    simp [h]
  | cons c cs ih =>
    simp only [splitOnComma] at h
    cases hsplit : splitOnComma cs with
    | nil => exact absurd hsplit (splitOnComma_ne_nil cs)
    | cons p ps =>
      rw [hsplit] at h ih
      by_cases hc : c = ','
      · rw [if_pos hc] at h
        rcases List.mem_cons.mp h with h | h
        · simp [h]
        · exact ih piece h
      · rw [if_neg hc] at h
        rcases List.mem_cons.mp h with h | h
        · rw [h]
          intro hmem
          rcases List.mem_cons.mp hmem with hmem | hmem
          · exact hc hmem.symm
          · exact ih p (List.mem_cons_self _ _) hmem
        · exact ih piece (List.mem_cons_of_mem _ h)

/-- What is dropped from the back and what is kept make up the list. -/
theorem rdropWhile_append_rtakeWhile (p : Char → Bool) (l : List Char) :
    l.rdropWhile p ++ l.rtakeWhile p = l := by
  simp only [List.rdropWhile, List.rtakeWhile, ← List.reverse_append,
    List.takeWhile_append_dropWhile, List.reverse_reverse]

/-- A trimmed text is the text without a run of white space at the front and
one at the back. -/
theorem jsTrim_surrounding (s : String) :
    ∃ front back : List Char,
      s.toList = front ++ (jsTrim s).toList ++ back ∧
      (∀ c ∈ front, isJsWhitespace c = true) ∧ (∀ c ∈ back, isJsWhitespace c = true) := by
  refine ⟨s.toList.takeWhile isJsWhitespace,
    (s.toList.dropWhile isJsWhitespace).rtakeWhile isJsWhitespace, ?_, ?_, ?_⟩
  · rw [jsTrim_toList, List.append_assoc, rdropWhile_append_rtakeWhile,
      List.takeWhile_append_dropWhile]
  · intro c hc
    exact List.mem_takeWhile_imp hc
  · intro c hc
    exact List.mem_rtakeWhile_imp hc

/-- A list and a prefix of it that is not empty begin alike. -/
theorem head_eq_of_initial (r d : List Char) (hr : r ≠ []) (hd : d ≠ []) (hp : r <+: d) :
    d.head hd = r.head hr := by
  obtain ⟨t, rfl⟩ := hp
  exact List.head_append_of_ne_nil hr

/-- The entry at index 0 is the head. -/
theorem get_zero_eq_head (l : List Char) (hl : 0 < l.length) (hne : l ≠ []) :
    l.get ⟨0, hl⟩ = l.head hne := by
  cases l with
  | nil => exact absurd rfl hne
  | cons a r => rfl

/-- A trimmed text that is not empty begins with a character that is no white
space. -/
theorem jsTrim_head (s : String) (h : (jsTrim s).toList ≠ []) :
    isJsWhitespace ((jsTrim s).toList.head h) = false := by
  have hd : s.toList.dropWhile isJsWhitespace ≠ [] := by
    intro hnil
    apply h
    rw [jsTrim_toList, hnil]
    rfl
  have hhead := List.head_dropWhile_not isJsWhitespace s.toList hd
  rw [head_eq_of_initial (jsTrim s).toList _ h hd
    ( List.rdropWhile_prefix isJsWhitespace (s.toList.dropWhile isJsWhitespace))] at hhead
  exact hhead

/-- A trimmed text that is not empty ends with a character that is no white
space. -/
theorem jsTrim_getLast (s : String) (h : (jsTrim s).toList ≠ []) :
    isJsWhitespace ((jsTrim s).toList.getLast h) = false := by
  have := List.rdropWhile_last_not isJsWhitespace (s.toList.dropWhile isJsWhitespace) h
  simpa using this

/-- Trimming a trimmed text changes nothing. -/
theorem jsTrim_idempotent (s : String) : jsTrim (jsTrim s) = jsTrim s := by
  have hchars : (jsTrim (jsTrim s)).toList = (jsTrim s).toList := by
    rw [jsTrim_toList (jsTrim s)]
    have hdrop : (jsTrim s).toList.dropWhile isJsWhitespace = (jsTrim s).toList := by
      rw [List.dropWhile_eq_self_iff]
      intro hl
      have hne : (jsTrim s).toList ≠ [] := List.ne_nil_of_length_pos hl
      have hhead := jsTrim_head s hne
      rw [get_zero_eq_head _ hl hne, hhead]
      simp
    rw [hdrop, jsTrim_toList, List.rdropWhile_idempotent]
  exact congrArg String.mk hchars

/-- No character of a trimmed text is new: a text without commas trims to a
text without commas. -/
theorem jsTrim_subset (s : String) (c : Char) (h : c ∈ (jsTrim s).toList) : c ∈ s.toList := by
  rw [jsTrim_toList] at h
  exact (List.dropWhile_suffix isJsWhitespace).sublist.subset
    ((List.IsPrefix.sublist ( List.rdropWhile_prefix isJsWhitespace _)).subset h)

/-- The pieces of `jsSplitComma`, as character lists. -/
theorem jsSplitComma_toList (s : String) :
    (jsSplitComma s).map String.toList = splitOnComma s.toList := by
  simp only [jsSplitComma, List.map_map]
  exact List.map_id'' (fun _ => rfl) _

/-- The tags the note handler stores have the properties of trimmed pieces that
are not empty. -/
theorem stored_tag_properties (input tag : String)
    (h : tag ∈ ((jsSplitComma input).map jsTrim).filter (fun tag => tag ≠ "")) :
    tag ≠ "" ∧ ',' ∉ tag.toList ∧ jsTrim tag = tag ∧
      ∀ hne : tag.toList ≠ [],
        isJsWhitespace (tag.toList.head hne) = false ∧
        isJsWhitespace (tag.toList.getLast hne) = false := by
  obtain ⟨hmem, hne⟩ := List.mem_filter.mp h
  obtain ⟨piece, hpiece, rfl⟩ := List.mem_map.mp hmem
  refine ⟨by simpa using hne, ?_, jsTrim_idempotent piece, fun hl =>
    ⟨jsTrim_head piece hl, jsTrim_getLast piece hl⟩⟩
  intro hcomma
  have hin : piece.toList ∈ splitOnComma input.toList := by
    rw [← jsSplitComma_toList]
    exact List.mem_map_of_mem _ hpiece
  exact not_comma_of_mem_splitOnComma _ _ hin (jsTrim_subset piece _ hcomma)

/-- C27: the tags of the record the note handler writes are the pieces of the
tags text between its commas, each trimmed, without the empty ones, in the
order of the text.  The pieces joined with commas are the text and hold no
comma; a trimmed piece is the piece without white space at its two ends; so a
stored tag is not empty, holds no comma, and neither begins nor ends with
white space. -/
theorem note_tags_stored (now : Nat) (notes : List Note) (newNote : NoteDraft)
    (editId : Option Nat) :
    (∀ note ∈ (handleAddOrEditNote now notes newNote editId).items, note ∉ notes →
      note.tags = ((jsSplitComma newNote.tags).map jsTrim).filter (fun tag => tag ≠ "")) ∧
    List.intercalate [','] ((jsSplitComma newNote.tags).map String.toList) =
      newNote.tags.toList ∧
    (∀ piece ∈ jsSplitComma newNote.tags, ',' ∉ piece.toList) ∧
    (∀ piece ∈ jsSplitComma newNote.tags, ∃ front back : List Char,
      piece.toList = front ++ (jsTrim piece).toList ++ back ∧
      (∀ c ∈ front, isJsWhitespace c = true) ∧ (∀ c ∈ back, isJsWhitespace c = true)) ∧
    (∀ tag ∈ ((jsSplitComma newNote.tags).map jsTrim).filter (fun tag => tag ≠ ""),
      tag ≠ "" ∧ ',' ∉ tag.toList ∧
      ∀ hne : tag.toList ≠ [],
        isJsWhitespace (tag.toList.head hne) = false ∧
        isJsWhitespace (tag.toList.getLast hne) = false) := by
  refine ⟨?_, ?_, ?_, ?_, ?_⟩
  · intro note hnote hnew
    simp only [handleAddOrEditNote] at hnote
    by_cases hguard : jsTrim newNote.title = "" ∨ jsTrim newNote.content = ""
    · rw [if_pos hguard] at hnote
      exact absurd hnote hnew
    · rw [if_neg hguard] at hnote
      cases htarget : editTarget editId with
      | none =>
        simp only [htarget] at hnote
        rcases List.mem_cons.mp hnote with h | h
        · rw [h]
        · exact absurd h hnew
      | some e =>
        simp only [htarget] at hnote
        obtain ⟨old, hold, hEq⟩ := List.mem_map.mp hnote
        by_cases hid : old.id = e
        · rw [if_pos hid] at hEq
          rw [← hEq]
        · rw [if_neg hid] at hEq
          exact absurd (hEq ▸ hold) hnew
  · rw [jsSplitComma_toList, intercalate_splitOnComma]
  · intro piece hpiece
    apply not_comma_of_mem_splitOnComma newNote.tags.toList
    rw [← jsSplitComma_toList]
    exact List.mem_map_of_mem _ hpiece
  · intro piece _
    exact jsTrim_surrounding piece
  · intro tag htag
    obtain ⟨h1, h2, _, h4⟩ := stored_tag_properties newNote.tags tag htag
    exact ⟨h1, h2, h4⟩

/-- Witness of `note_tags_stored`: the tags text " a , b,, c d ," is stored as
the tags a, b and c d. -/
theorem note_tags_stored_witness :
    (handleAddOrEditNote 1749988800000 [] ⟨"Weekly", "Notes", " a , b,, c d ,", "", "meeting"⟩
        none).items =
        [⟨1749988800000, "Weekly", "Notes", ["a", "b", "c d"], "", "meeting"⟩] ∧
      ∀ note ∈ (handleAddOrEditNote 1749988800000 []
          ⟨"Weekly", "Notes", " a , b,, c d ,", "", "meeting"⟩ none).items,
        note ∉ ([] : List Note) →
        note.tags = ((jsSplitComma " a , b,, c d ,").map jsTrim).filter (fun tag => tag ≠ "") :=
  ⟨by decide,
    (note_tags_stored 1749988800000 [] ⟨"Weekly", "Notes", " a , b,, c d ,", "", "meeting"⟩
      none).1⟩

/-! ## Round trip through the form -/

/-- A text without a comma is its only piece. -/
theorem splitOnComma_of_no_comma (a : List Char) (h : ',' ∉ a) : splitOnComma a = [a] := by
  induction a with
  | nil => rfl
  | cons c a ih =>
    have hc : c ≠ ',' := fun hEq => h (hEq ▸ List.mem_cons_self _ _)
    have ha : ',' ∉ a := fun hmem => h (List.mem_cons_of_mem _ hmem)
    simp only [splitOnComma, if_neg hc, ih ha]

/-- A text that begins with a piece without a comma, then a comma. -/
theorem splitOnComma_append_comma (a rest : List Char) (h : ',' ∉ a) :
    splitOnComma (a ++ ',' :: rest) = a :: splitOnComma rest := by
  induction a with
  | nil => simp [splitOnComma]
  | cons c a ih =>
    have hc : c ≠ ',' := fun hEq => h (hEq ▸ List.mem_cons_self _ _)
    have ha : ',' ∉ a := fun hmem => h (List.mem_cons_of_mem _ hmem)
    have ih2 := ih ha
    rw [List.cons_append]
    simp only [splitOnComma, if_neg hc]
    rw [ih2]

/-- The pieces of tags joined with ", ": the first tag, and each other tag
behind a space. -/
theorem splitOnComma_intercalate (x : List Char) (r : List (List Char))
    (h : ∀ y ∈ x :: r, ',' ∉ y) :
    splitOnComma (List.intercalate [',', ' '] (x :: r)) = x :: r.map (fun y => ' ' :: y) := by
  induction r generalizing x with
  | nil =>
    rw [intercalate_singleton]
    exact splitOnComma_of_no_comma x (h x (List.mem_cons_self _ _))
  | cons y r ih =>
    have hx : ',' ∉ x := h x (List.mem_cons_self _ _)
    have hrest : ∀ z ∈ y :: r, ',' ∉ z := fun z hz => h z (List.mem_cons_of_mem _ hz)
    have hsp : (' ' : Char) ≠ ',' := by decide
    rw [intercalate_cons_cons]
    have hshape : x ++ [',', ' '] ++ List.intercalate [',', ' '] (y :: r) =
        x ++ ',' :: (' ' :: List.intercalate [',', ' '] (y :: r)) := by simp
    rw [hshape, splitOnComma_append_comma x _ hx]
    simp only [splitOnComma, if_neg hsp, ih y hrest, List.map_cons]

/-- A space in front of a text does not change what it trims to. -/
theorem jsTrim_space_cons (l : List Char) : jsTrim (String.mk (' ' :: l)) = jsTrim (String.mk l) := by
  have hws : isJsWhitespace ' ' = true := by decide
  simp only [jsTrim, String.toList, List.dropWhile_cons, hws, if_true]

/-- Tags that are trimmed, not empty and without a comma come back from
joining them with ", " and splitting, trimming and dropping the empty
pieces. -/
theorem tags_round_trip (tags : List String)
    (h : ∀ t ∈ tags, t ≠ "" ∧ ',' ∉ t.toList ∧ jsTrim t = t) :
    ((jsSplitComma (jsJoin ", " tags)).map jsTrim).filter (fun tag => tag ≠ "") = tags := by
  cases tags with
  | nil => decide
  | cons t r =>
    have hsplit : jsSplitComma (jsJoin ", " (t :: r)) =
        t :: r.map (fun u => String.mk (' ' :: u.toList)) := by
      have hcomma : ∀ y ∈ t.toList :: r.map String.toList, ',' ∉ y := by
        intro y hy
        rcases List.mem_cons.mp hy with hy | hy
        · rw [hy]
          exact (h t (List.mem_cons_self _ _)).2.1
        · obtain ⟨u, hu, rfl⟩ := List.mem_map.mp hy
          exact (h u (List.mem_cons_of_mem _ hu)).2.1
      have hjoin : (jsJoin ", " (t :: r)).toList =
          List.intercalate [',', ' '] (t.toList :: r.map String.toList) := rfl
      simp only [jsSplitComma, hjoin, splitOnComma_intercalate _ _ hcomma, List.map_cons,
        List.map_map]
      rfl
    have htrim : (t :: r.map (fun u => String.mk (' ' :: u.toList))).map jsTrim = t :: r := by
      simp only [List.map_cons, List.map_map, (h t (List.mem_cons_self _ _)).2.2]
      congr 1
      conv_rhs => rw [← List.map_id r]
      apply List.map_congr_left
      intro u hu
      simp only [Function.comp_apply, jsTrim_space_cons, id_eq]
      exact (h u (List.mem_cons_of_mem _ hu)).2.2
    rw [hsplit, htrim, List.filter_eq_self]
    intro u hu
    simpa using (h u hu).1

/-- A map that leaves every entry as it is. -/
theorem map_eq_self_of_fixed {α : Type} (f : α → α) (l : List α) (h : ∀ a ∈ l, f a = a) :
    l.map f = l := by
  conv_rhs => rw [← List.map_id l]
  exact List.map_congr_left (fun a ha => by rw [h a ha]; rfl)

/-- A task that was just added, opened in the form and saved, leaves the
collection as it is, when its id is not 0 and no other task has it. -/
theorem task_round_trip (now later : Nat) (tasks : List Task) (draft : Task)
    (hnow : now ≠ 0) (htitle : ∃ c ∈ draft.title.toList, isJsWhitespace c = false)
    (hfresh : ∀ t ∈ tasks, t.id ≠ now) :
    (handleAddOrEditTask now tasks draft none).items = tasks ++ [{ draft with id := now }] ∧
    (handleAddOrEditTask later (tasks ++ [{ draft with id := now }])
      (Backlog.handleEditClick { draft with id := now }).newTask
      (Backlog.handleEditClick { draft with id := now }).editId).items =
      tasks ++ [{ draft with id := now }] := by
  have hblank : ¬ jsTrim draft.title = "" := jsTrim_ne_empty _ htitle
  have htarget : editTarget (some now) = some now := by simp [editTarget, hnow]
  constructor
  · simp only [handleAddOrEditTask, if_neg hblank, editTarget]
  · simp only [handleAddOrEditTask, Backlog.handleEditClick, if_neg hblank, htarget]
    apply map_eq_self_of_fixed
    intro t ht
    rcases List.mem_append.mp ht with ht | ht
    · rw [if_neg (hfresh t ht)]
    · rw [List.mem_singleton] at ht
      rw [ht, if_pos rfl]

/-- The key results the objective handler stores come back unchanged from the
form. -/
theorem formatted_key_results_fixed (newKeyResults : List KeyResult) :
    ((((newKeyResults.filter (fun kr => jsTrim kr.text ≠ "")).map
        (fun kr => ({ text := kr.text, done := false } : KeyResult))).map
        (fun kr => ({ text := kr.text, done := kr.done || false } : KeyResult))).filter
        (fun kr => jsTrim kr.text ≠ "")).map
      (fun kr => ({ text := kr.text, done := false } : KeyResult)) =
      (newKeyResults.filter (fun kr => jsTrim kr.text ≠ "")).map
        (fun kr => ({ text := kr.text, done := false } : KeyResult)) := by
  induction newKeyResults with
  | nil => rfl
  | cons kr rest ih =>
    by_cases hkr : jsTrim kr.text = ""
    · simpa [List.filter_cons, hkr] using ih
    · simpa [List.filter_cons, hkr] using ih

/-- An objective that was just added, opened in the form and saved, leaves the
collection as it is, when its id is not 0 and no other objective has it. -/
theorem objective_round_trip (now later : Nat) (objectives : List Objective)
    (newTitle newDueDate : String) (newKeyResults : List KeyResult)
    (hnow : now ≠ 0) (htitle : ∃ c ∈ newTitle.toList, isJsWhitespace c = false)
    (hfresh : ∀ o ∈ objectives, o.id ≠ now) :
    ∃ newObj : Objective,
      (handleAddOrEditObjective now objectives newTitle newDueDate newKeyResults none).items =
        objectives ++ [newObj] ∧
      newObj.owner = "You" ∧ (newDueDate = "" → newObj.due = "End of Quarter") ∧
      (handleAddOrEditObjective later (objectives ++ [newObj])
        (OKR.handleEditClick newObj).newTitle (OKR.handleEditClick newObj).newDueDate
        (OKR.handleEditClick newObj).newKeyResults (OKR.handleEditClick newObj).editId).items =
        objectives ++ [newObj] := by
  have hblank : ¬ jsTrim newTitle = "" := jsTrim_ne_empty _ htitle
  have htarget : editTarget (some now) = some now := by simp [editTarget, hnow]
  refine ⟨{ id := now, title := newTitle, owner := "You",
            due := jsOrString newDueDate "End of Quarter",
            keyResults := (newKeyResults.filter (fun kr => jsTrim kr.text ≠ "")).map
              (fun kr => ({ text := kr.text, done := false } : KeyResult)) }, ?_, rfl, ?_, ?_⟩
  · simp only [handleAddOrEditObjective, if_neg hblank, editTarget]
  · intro h
    simp [jsOrString, h]
  · simp only [handleAddOrEditObjective, OKR.handleEditClick, if_neg hblank, htarget,
      formatted_key_results_fixed]
    apply map_eq_self_of_fixed
    intro o ho
    rcases List.mem_append.mp ho with ho | ho
    · rw [if_neg (hfresh o ho)]
    · rw [List.mem_singleton] at ho
      rw [ho, if_pos rfl]
      have hdue : jsOrString (jsOrString newDueDate "End of Quarter")
          (jsOrString newDueDate "End of Quarter") = jsOrString newDueDate "End of Quarter" := by
        simp [jsOrString]
      rw [hdue]

/-- A note that was just added, opened in the form and saved, leaves the
collection as it is, when its id is not 0, no other note has it, and its type
is one of the four. -/
theorem note_round_trip (now later : Nat) (notes : List Note) (newNote : NoteDraft)
    (hnow : now ≠ 0) (htitle : ∃ c ∈ newNote.title.toList, isJsWhitespace c = false)
    (hcontent : ∃ c ∈ newNote.content.toList, isJsWhitespace c = false)
    (htype : newNote.type = "meeting" ∨ newNote.type = "decision" ∨ newNote.type = "action" ∨
      newNote.type = "general")
    (hfresh : ∀ n ∈ notes, n.id ≠ now) :
    ∃ note : Note,
      (handleAddOrEditNote now notes newNote none).items = note :: notes ∧
      (handleAddOrEditNote later (note :: notes) (handleEdit note).newNote
        (handleEdit note).editId).items = note :: notes := by
  have hguard : ¬ (jsTrim newNote.title = "" ∨ jsTrim newNote.content = "") :=
    fun h => h.elim (jsTrim_ne_empty _ htitle) (jsTrim_ne_empty _ hcontent)
  have htarget : editTarget (some now) = some now := by simp [editTarget, hnow]
  have htypeOr : jsOrString newNote.type "meeting" = newNote.type := by
    rcases htype with h | h | h | h <;> rw [h] <;> decide
  have htags : ((jsSplitComma (jsJoin ", "
      (((jsSplitComma newNote.tags).map jsTrim).filter (fun tag => tag ≠ "")))).map
      jsTrim).filter (fun tag => tag ≠ "") =
      ((jsSplitComma newNote.tags).map jsTrim).filter (fun tag => tag ≠ "") := by
    apply tags_round_trip
    intro t ht
    obtain ⟨h1, h2, h3, _⟩ := stored_tag_properties newNote.tags t ht
    exact ⟨h1, h2, h3⟩
  refine ⟨{ id := now, title := newNote.title, content := newNote.content,
            tags := ((jsSplitComma newNote.tags).map jsTrim).filter (fun tag => tag ≠ ""),
            date := newNote.date, type := newNote.type }, ?_, ?_⟩
  · simp only [handleAddOrEditNote, if_neg hguard, editTarget, Option.getD]
  · simp only [handleAddOrEditNote, handleEdit, if_neg hguard, htarget, htypeOr, htags,
      Option.getD]
    apply map_eq_self_of_fixed
    intro n hn
    rcases List.mem_cons.mp hn with hn | hn
    · rw [hn, if_pos rfl]
    · rw [if_neg (hfresh n hn)]

/-- C23 as stated fails: a task is added at an instant whose time value is the
id of a task already there; the new task is opened in the form and saved with
its fields as they are, and the map over the ids rewrites the older task as
well. -/
theorem round_trip_fails_on_shared_id :
    (handleAddOrEditTask 1749988800000 [mkTask 1749988800000 "A" "To Do"]
        (mkTask 0 "New" "To Do") none).items =
        [mkTask 1749988800000 "A" "To Do", mkTask 1749988800000 "New" "To Do"] ∧
      (handleAddOrEditTask 1749988860000
        [mkTask 1749988800000 "A" "To Do", mkTask 1749988800000 "New" "To Do"]
        (Backlog.handleEditClick (mkTask 1749988800000 "New" "To Do")).newTask
        (Backlog.handleEditClick (mkTask 1749988800000 "New" "To Do")).editId).items =
        [mkTask 1749988800000 "New" "To Do", mkTask 1749988800000 "New" "To Do"] ∧
      [mkTask 1749988800000 "New" "To Do", mkTask 1749988800000 "New" "To Do"] ≠
        [mkTask 1749988800000 "A" "To Do", mkTask 1749988800000 "New" "To Do"] := by
  decide

/-- C23, amended: a task, objective or note that create has just added with an
id that is not 0 and that no other record of the collection has, opened in the
edit form and saved with the fields of the form as they are, leaves the
collection as it was before the edit: the record has its id, its place and its
field values, the tags of a note and the owner "You" and the due
"End of Quarter" of an objective included. -/
theorem round_trip (now later : Nat) (hnow : now ≠ 0) :
    (∀ (tasks : List Task) (draft : Task),
      (∃ c ∈ draft.title.toList, isJsWhitespace c = false) → (∀ t ∈ tasks, t.id ≠ now) →
      (handleAddOrEditTask now tasks draft none).items = tasks ++ [{ draft with id := now }] ∧
      (handleAddOrEditTask later (tasks ++ [{ draft with id := now }])
        (Backlog.handleEditClick { draft with id := now }).newTask
        (Backlog.handleEditClick { draft with id := now }).editId).items =
        tasks ++ [{ draft with id := now }]) ∧
    (∀ (objectives : List Objective) (newTitle newDueDate : String)
      (newKeyResults : List KeyResult),
      (∃ c ∈ newTitle.toList, isJsWhitespace c = false) → (∀ o ∈ objectives, o.id ≠ now) →
      ∃ newObj : Objective,
        (handleAddOrEditObjective now objectives newTitle newDueDate newKeyResults none).items =
          objectives ++ [newObj] ∧
        newObj.owner = "You" ∧ (newDueDate = "" → newObj.due = "End of Quarter") ∧
        (handleAddOrEditObjective later (objectives ++ [newObj])
          (OKR.handleEditClick newObj).newTitle (OKR.handleEditClick newObj).newDueDate
          (OKR.handleEditClick newObj).newKeyResults (OKR.handleEditClick newObj).editId).items =
          objectives ++ [newObj]) ∧
    (∀ (notes : List Note) (newNote : NoteDraft),
      (∃ c ∈ newNote.title.toList, isJsWhitespace c = false) →
      (∃ c ∈ newNote.content.toList, isJsWhitespace c = false) →
      (newNote.type = "meeting" ∨ newNote.type = "decision" ∨ newNote.type = "action" ∨
        newNote.type = "general") →
      (∀ n ∈ notes, n.id ≠ now) →
      ∃ note : Note,
        (handleAddOrEditNote now notes newNote none).items = note :: notes ∧
        (handleAddOrEditNote later (note :: notes) (handleEdit note).newNote
          (handleEdit note).editId).items = note :: notes) :=
  ⟨fun tasks draft ht hf => task_round_trip now later tasks draft hnow ht hf,
    fun objectives newTitle newDueDate newKeyResults ht hf =>
      objective_round_trip now later objectives newTitle newDueDate newKeyResults hnow ht hf,
    fun notes newNote ht hc hty hf =>
      note_round_trip now later notes newNote hnow ht hc hty hf⟩

/-- Witness of `round_trip`: a note with the tags text " a , b,, c d ," is added
in front of a note with id 1, opened in the form, where the tags read
"a, b, c d", and saved. -/
theorem round_trip_witness :
    (1749988800000 ≠ 0 ∧ ∀ n ∈ [mkNote 1 "meeting"], n.id ≠ 1749988800000) ∧
      (handleEdit ⟨1749988800000, "Weekly", "Notes", ["a", "b", "c d"], "", "general"⟩).newNote.tags
        = "a, b, c d" ∧
      ∃ note : Note,
        (handleAddOrEditNote 1749988800000 [mkNote 1 "meeting"]
          ⟨"Weekly", "Notes", " a , b,, c d ,", "", "general"⟩ none).items =
          note :: [mkNote 1 "meeting"] ∧
        (handleAddOrEditNote 1749988860000 (note :: [mkNote 1 "meeting"]) (handleEdit note).newNote
          (handleEdit note).editId).items = note :: [mkNote 1 "meeting"] :=
  ⟨⟨by decide, by decide⟩, by decide,
    (round_trip 1749988800000 1749988860000 (by decide)).2.2 [mkNote 1 "meeting"]
      ⟨"Weekly", "Notes", " a , b,, c d ,", "", "general"⟩ ⟨'W', by decide, by decide⟩
      ⟨'N', by decide, by decide⟩ (Or.inr (Or.inr (Or.inr rfl))) (by decide)⟩

end PmLaunchpad
